import Mathlib

/-! Verification development for the bcparse assembler front end.

The data model and the Parser are translated from the repository sources
(src/src/bcparse/parser.cpp, src/src/bcparse/main.cpp,
src/include/bcparse/emit/obj_loc.hpp, src/include/bcparse/ast/...).
Components of the repository that are not present under src/ (the token
stream, the error list, the symbol table, the analyzer and the compiler
emission pass) are modelled from the specification; their doc comments
say so explicitly. -/

namespace Bcparse

/-- Source location (file, line, column) attached to every token; translated
from the repository data model (spec section 3, parser.cpp usage). -/
structure SourceLocation where
  line : Int
  col : Int
  fileName : String
deriving DecidableEq, Repr

/-- Token classes of the lexer surface; the class list is taken from the
usage in parser.cpp and the token/grammar surface of spec section 6. -/
inductive TokenClass where
  | tkEmpty
  | tkInteger
  | tkFloat
  | tkString
  | tkIdent
  | tkLabel
  | tkDirective
  | tkInterpolation
  | tkReg
  | tkLocal
  | tkNewline
  | tkOpenParenth
  | tkCloseParenth
  | tkOpenBracket
  | tkCloseBracket
  | tkOpenBrace
  | tkCloseBrace
deriving DecidableEq, Repr

/-- Immutable token value: class tag, text value, source location
(spec section 3; Token usage throughout parser.cpp). -/
structure Token where
  tokenClass : TokenClass
  value : String
  location : SourceLocation
deriving DecidableEq, Repr

/-- Token.EMPTY, the empty sentinel token (operator bool is false on it). -/
def Token.EMPTY : Token := ⟨TokenClass.tkEmpty, "", ⟨-1, -1, ""⟩⟩

/-- Token emptiness test: a token is empty iff its class is the empty class.
This models operator bool / Token.empty() in the source. -/
def Token.isEmptyTok (t : Token) : Bool := t.tokenClass == TokenClass.tkEmpty

/-- Modelled from the spec: Token.getRepr is used only to re-serialize a
directive body verbatim, and the spec (section 4.3) says the body is the
token text joined by spaces; we model getRepr as the token text. -/
def Token.getRepr (t : Token) : String := t.value

/-- Modelled from the spec: Token.tokenTypeToString (token.cpp is not under
src/) maps a token class to a display name; used only as the context text
of an expected-token diagnostic. -/
def tokenTypeToString : TokenClass → String
  | TokenClass.tkEmpty => "empty"
  | TokenClass.tkInteger => "integer"
  | TokenClass.tkFloat => "float"
  | TokenClass.tkString => "string"
  | TokenClass.tkIdent => "identifier"
  | TokenClass.tkLabel => "label"
  | TokenClass.tkDirective => "directive"
  | TokenClass.tkInterpolation => "interpolation"
  | TokenClass.tkReg => "register"
  | TokenClass.tkLocal => "local"
  | TokenClass.tkNewline => "newline"
  | TokenClass.tkOpenParenth => "open parenthesis"
  | TokenClass.tkCloseParenth => "close parenthesis"
  | TokenClass.tkOpenBracket => "open bracket"
  | TokenClass.tkCloseBracket => "close bracket"
  | TokenClass.tkOpenBrace => "open brace"
  | TokenClass.tkCloseBrace => "close brace"

/-- Modelled from the spec: the Token Stream (token_stream.hpp is not under
src/) is an indexed, append-only buffer of tokens with a movable read
cursor (spec section 4.2). -/
structure TokenStream where
  tokens : List Token
  pos : Nat
deriving DecidableEq, Repr

/-- Modelled from the spec: size of the token buffer. -/
def TokenStream.getSize (ts : TokenStream) : Nat := ts.tokens.length

/-- Modelled from the spec: non-consuming look-ahead, returns an empty token
past the end (spec section 4.2). -/
def TokenStream.peekAt (ts : TokenStream) (n : Nat) : Token :=
  (ts.tokens.get? (ts.pos + n)).getD Token.EMPTY

/-- Peek at the cursor (offset zero). -/
def TokenStream.peek (ts : TokenStream) : Token := ts.peekAt 0

/-- Modelled from the spec: whether the cursor is before the end. -/
def TokenStream.hasNext (ts : TokenStream) : Bool := ts.pos < ts.tokens.length

/-- Modelled from the spec: advance the cursor returning the token under it;
fails silently past the end by returning the empty token (spec 4.2). -/
def TokenStream.next (ts : TokenStream) : Token × TokenStream :=
  if ts.pos < ts.tokens.length then
    ((ts.tokens.get? ts.pos).getD Token.EMPTY, { ts with pos := ts.pos + 1 })
  else
    (Token.EMPTY, ts)

/-- Modelled from the spec: move the cursor back one position (spec 4.2). -/
def TokenStream.rewind (ts : TokenStream) : TokenStream :=
  { ts with pos := ts.pos - 1 }

/-- Modelled from the spec: the last token of the buffer. -/
def TokenStream.last (ts : TokenStream) : Token :=
  ts.tokens.getLast?.getD Token.EMPTY

/-- Severity levels of diagnostics. Modelled from the spec: every diagnostic
carries a severity, at minimum error; error-or-above is fatal
(spec section 7). The source only ever constructs LEVEL_ERROR. -/
inductive ErrorLevel where
  | levelInfo
  | levelWarn
  | levelError
deriving DecidableEq, Repr

/-- Diagnostic message kinds appearing in parser.cpp and spec section 7. -/
inductive ErrorMessage where
  | msgExpectedIdentifier
  | msgExpectedToken
  | msgExpectedEndOfStatement
  | msgUnexpectedEof
  | msgUnexpectedEol
  | msgUnexpectedToken
  | msgUndeclaredIdentifier
  | msgIllegalExpression
  | msgUnknownOpcode
deriving DecidableEq, Repr

/-- Compiler error record: severity, message kind, location, optional
context text (spec section 3; CompilerError construction in parser.cpp). -/
structure CompilerError where
  level : ErrorLevel
  msg : ErrorMessage
  location : SourceLocation
  text : String
deriving DecidableEq, Repr

/-- Modelled from the spec: the error list is fatal when it contains any
diagnostic at error severity or above (spec sections 3 and 7); levelError
is the highest level in this model. -/
def hasFatalErrors (errors : List CompilerError) : Bool :=
  errors.any (fun e => e.level == ErrorLevel.levelError)

/-- Location order used to sort diagnostics before reporting: by line then
column. Modelled from the spec (diagnostics are sorted once by source
location before reporting, spec section 3). -/
def errorLocLe (a b : CompilerError) : Bool :=
  (a.location.line < b.location.line) ||
    (a.location.line == b.location.line && a.location.col ≤ b.location.col)

/-- Insert one error into a location-sorted list. -/
def insertError (e : CompilerError) : List CompilerError → List CompilerError
  | [] => [e]
  | x :: xs => if errorLocLe e x then e :: x :: xs else x :: insertError e xs

/-- Modelled from the spec: ErrorList.sortErrors sorts the diagnostic list
by source location (insertion sort model). -/
def sortErrors : List CompilerError → List CompilerError
  | [] => []
  | x :: xs => insertError x (sortErrors xs)

/-- Storage classes of an object location, translated from
src/include/bcparse/emit/obj_loc.hpp. -/
inductive DataStoreLocation where
  | nullDataStore
  | staticDataStore
  | localDataStore
  | registerDataStore
deriving DecidableEq, Repr

/-- Object location: (integer slot index, storage class), translated from
src/include/bcparse/emit/obj_loc.hpp. -/
structure ObjLoc where
  location : Int
  dataStoreLocation : DataStoreLocation
deriving DecidableEq, Repr

/-- Jump modes of AstJmpStatement, translated from the jumpModeStrings map
in parser.cpp (jmp, je, jne, jg, jge). -/
inductive JumpMode where
  | modeNone
  | jumpIfEqual
  | jumpIfNotEqual
  | jumpIfGreater
  | jumpIfGreaterOrEqual
deriving DecidableEq, Repr

/-- AST node variants constructed by the Parser, translated from the ast
headers included by parser.cpp. AstDataLocation (header not under src/) is
modelled from the spec as an Object-Location-carrying data-location node
(spec section 4.3); the interpolation value is whatever expression the
symbol table returns (parser.cpp parseInterpolation). -/
inductive AstNode where
  | directive (name : String) (args : List AstNode) (body : String) (loc : SourceLocation)
  | labelDecl (name : String) (label : AstNode) (loc : SourceLocation)
  | label (name : String) (loc : SourceLocation)
  | identifier (name : String) (loc : SourceLocation)
  | integerLiteral (value : Int) (loc : SourceLocation)
  | stringLiteral (value : String) (loc : SourceLocation)
  | dataLocation (objLoc : ObjLoc) (loc : SourceLocation)
  | jmp (target : AstNode) (mode : JumpMode) (loc : SourceLocation)
  | cmpStmt (left : AstNode) (right : AstNode) (loc : SourceLocation)

/-- Modelled from the spec: AstStatement.isHoisted (ast_statement.hpp is not
under src/). Hoisting is a static property of the variant; directives and
label declarations are the hoisted constructs (spec section 3 and the
glossary entry for hoisting). -/
def AstNode.isHoisted : AstNode → Bool
  | AstNode.directive _ _ _ _ => true
  | AstNode.labelDecl _ _ _ => true
  | _ => false

/-- Modelled from the spec: the symbol table, bound globals, maps a name to
a shared AST expression; get falls back to an optional parent table
(spec section 3). A root table has no parent; a child table chains. -/
inductive BoundGlobals where
  | root (entries : List (String × AstNode))
  | child (entries : List (String × AstNode)) (parent : BoundGlobals)

/-- Association lookup in one scope's entry list. -/
def lookupEntry : List (String × AstNode) → String → Option AstNode
  | [], _ => none
  | (k, v) :: rest, name => if k = name then some v else lookupEntry rest name

/-- Replace the binding for a name, or append it; last writer wins
(spec section 3, re-declaration overwrites the entry). -/
def setEntry : List (String × AstNode) → String → AstNode → List (String × AstNode)
  | [], name, v => [(name, v)]
  | (k, w) :: rest, name, v =>
      if k = name then (k, v) :: rest else (k, w) :: setEntry rest name v

/-- Modelled from the spec: get resolves in the own scope first, then falls
back to the parent table when one is present. -/
def BoundGlobals.get : BoundGlobals → String → Option AstNode
  | BoundGlobals.root entries, name => lookupEntry entries name
  | BoundGlobals.child entries parent, name =>
      match lookupEntry entries name with
      | some v => some v
      | none => parent.get name

/-- Modelled from the spec: set writes into the own scope only; child tables
never mutate the parent. -/
def BoundGlobals.set : BoundGlobals → String → AstNode → BoundGlobals
  | BoundGlobals.root entries, name, v => BoundGlobals.root (setEntry entries name v)
  | BoundGlobals.child entries parent, name, v =>
      BoundGlobals.child (setEntry entries name v) parent

/-- Modelled from the spec: setParent links a table under a parent scope. -/
def BoundGlobals.setParent : BoundGlobals → BoundGlobals → BoundGlobals
  | BoundGlobals.root entries, p => BoundGlobals.child entries p
  | BoundGlobals.child entries _, p => BoundGlobals.child entries p

/-- Parser state: the token stream cursor, the compilation unit's diagnostic
list, and the compilation unit's bound globals, the three pieces of state
the Parser mutates in parser.cpp. -/
structure ParserState where
  stream : TokenStream
  errors : List CompilerError
  globals : BoundGlobals

/-- Append a diagnostic to the unit's list (ErrorList.addError). -/
def addError (st : ParserState) (e : CompilerError) : ParserState :=
  { st with errors := st.errors ++ [e] }

/-- Advance the stream cursor by one via TokenStream.next. -/
def advanceStream (st : ParserState) : ParserState :=
  { st with stream := (st.stream.next).2 }

/-- Parser.match (parser.cpp lines 39 to 51): peek at the current token; when
it is non-empty and of the requested class, optionally consume it (only when
read is set and the stream has a next token) and return it; otherwise return
the empty token without touching the cursor. The name matchToken is used
because the source name collides with a Lean keyword. -/
def matchToken (tokenClass : TokenClass) (read : Bool) (st : ParserState) :
    Token × ParserState :=
  let peek := st.stream.peek
  if !peek.isEmptyTok && peek.tokenClass == tokenClass then
    if read && st.stream.hasNext then (peek, advanceStream st)
    else (peek, st)
  else
    (Token.EMPTY, st)

/-- Parser.matchAhead (parser.cpp lines 53 to 61): look ahead n tokens and
return the token when it is non-empty and of the requested class; the parser
state is returned untouched, as the method mutates nothing. -/
def matchAhead (tokenClass : TokenClass) (n : Nat) (st : ParserState) :
    Token × ParserState :=
  let peek := st.stream.peekAt n
  if !peek.isEmptyTok && peek.tokenClass == tokenClass then (peek, st)
  else (Token.EMPTY, st)

/-- Parser.currentLocation (parser.cpp lines 113 to 119). -/
def currentLocation (st : ParserState) : SourceLocation :=
  if st.stream.getSize ≠ 0 && !st.stream.hasNext then
    st.stream.last.location
  else
    st.stream.peek.location

/-- Parser.expect (parser.cpp lines 63 to 90): match, and on failure append
an expected-identifier or expected-token diagnostic at the current
location. -/
def expect (tokenClass : TokenClass) (read : Bool) (st : ParserState) :
    Token × ParserState :=
  let r := matchToken tokenClass read st
  if r.1.isEmptyTok then
    let location := currentLocation r.2
    let pair :=
      match tokenClass with
      | TokenClass.tkIdent => (ErrorMessage.msgExpectedIdentifier, "")
      | _ => (ErrorMessage.msgExpectedToken, tokenTypeToString tokenClass)
    (r.1, addError r.2 ⟨ErrorLevel.levelError, pair.1, location, pair.2⟩)
  else
    r

/-- The do-while recovery loop of Parser.expectEndOfStmt (parser.cpp lines
102 to 105): discard a token, then keep discarding while the stream has a
next token and the next token is not a newline; a found newline is
consumed. -/
def skipToNewline : Nat → ParserState → ParserState
  | 0, st => st
  | fuel + 1, st =>
    let st1 := advanceStream st
    if st1.stream.hasNext then
      let r := matchToken TokenClass.tkNewline true st1
      if r.1.isEmptyTok then skipToNewline fuel r.2 else r.2
    else
      st1

/-- Parser.expectEndOfStmt (parser.cpp lines 92 to 111): expect a newline;
on mismatch append an expected-end-of-statement diagnostic and discard
tokens up to the next newline or stream end. -/
def expectEndOfStmt (fuel : Nat) (st : ParserState) : Bool × ParserState :=
  let location := currentLocation st
  let r := matchToken TokenClass.tkNewline true st
  if r.1.isEmptyTok then
    let st2 := addError r.2
      ⟨ErrorLevel.levelError, ErrorMessage.msgExpectedEndOfStatement, location, ""⟩
    (false, skipToNewline fuel st2)
  else
    (true, r.2)

/-- Parser.skipStatementTerminators (parser.cpp lines 121 to 124): read past
newline tokens. -/
def skipStatementTerminators : Nat → ParserState → ParserState
  | 0, st => st
  | fuel + 1, st =>
    let r := matchToken TokenClass.tkNewline true st
    if r.1.isEmptyTok then r.2 else skipStatementTerminators fuel r.2

/-- Parser.parseIdentifier (parser.cpp lines 260 to 269). -/
def parseIdentifier (st : ParserState) : Option AstNode × ParserState :=
  let r := expect TokenClass.tkIdent true st
  if !r.1.isEmptyTok then
    (some (AstNode.identifier r.1.value r.1.location), r.2)
  else
    (none, r.2)

/-- Decimal digit run accumulator for the istringstream integer extraction
model: consume leading digits, stop at the first non-digit. -/
def readDigits : List Char → Nat → Nat
  | [], acc => acc
  | c :: cs, acc =>
      if c.isDigit then readDigits cs (acc * 10 + (c.toNat - 48)) else acc

/-- Model of the istringstream extraction `ss >> value` used by
parseIntegerLiteral, parseRegister and parseLocal: an optional minus sign
followed by a run of decimal digits; extraction failure leaves zero. -/
def readIntValue (s : String) : Int :=
  match s.data with
  | '-' :: cs => -(Int.ofNat (readDigits cs 0))
  | cs => Int.ofNat (readDigits cs 0)

/-- Parser.parseIntegerLiteral (parser.cpp lines 271 to 284). -/
def parseIntegerLiteral (st : ParserState) : Option AstNode × ParserState :=
  let r := expect TokenClass.tkInteger true st
  if !r.1.isEmptyTok then
    (some (AstNode.integerLiteral (readIntValue r.1.value) r.1.location), r.2)
  else
    (none, r.2)

/-- Parser.parseStringLiteral (parser.cpp lines 286 to 295). -/
def parseStringLiteral (st : ParserState) : Option AstNode × ParserState :=
  let r := expect TokenClass.tkString true st
  if !r.1.isEmptyTok then
    (some (AstNode.stringLiteral r.1.value r.1.location), r.2)
  else
    (none, r.2)

/-- Parser.parseRegister (parser.cpp lines 512 to 526): read the numeric
index out of the register token and build a data-location node in the
register data store. -/
def parseRegister (st : ParserState) : Option AstNode × ParserState :=
  let r := expect TokenClass.tkReg true st
  if !r.1.isEmptyTok then
    (some (AstNode.dataLocation
      ⟨readIntValue r.1.value, DataStoreLocation.registerDataStore⟩
      r.1.location), r.2)
  else
    (none, r.2)

/-- Parser.parseLocal (parser.cpp lines 528 to 542): read the numeric index
out of the local token and build a data-location node in the local data
store. -/
def parseLocal (st : ParserState) : Option AstNode × ParserState :=
  let r := expect TokenClass.tkLocal true st
  if !r.1.isEmptyTok then
    (some (AstNode.dataLocation
      ⟨readIntValue r.1.value, DataStoreLocation.localDataStore⟩
      r.1.location), r.2)
  else
    (none, r.2)

/-- Parser.parseLabel (parser.cpp lines 345 to 360): consume the label
token, bind an AstLabel under the label name in the unit's bound globals
(forward declaration), and return the label declaration statement. -/
def parseLabel (st : ParserState) : Option AstNode × ParserState :=
  let r := expect TokenClass.tkLabel true st
  if !r.1.isEmptyTok then
    let astLabel := AstNode.label r.1.value r.1.location
    let st2 := { r.2 with globals := r.2.globals.set r.1.value astLabel }
    (some (AstNode.labelDecl r.1.value astLabel r.1.location), st2)
  else
    (none, r.2)

/-- The mini-parser loop of Parser.parseInterpolation (parser.cpp lines 448
to 474): walk the freshly lexed token stream; an identifier token resolves
against the enclosing unit's (parent-chained) bound globals and its bound
expression is returned at once; an unresolved identifier appends an
undeclared-identifier diagnostic; any other token kind appends an
expected-identifier diagnostic; in both failure cases the loop continues
with the remaining tokens. -/
def interpLoop (globals : BoundGlobals) :
    List Token → List CompilerError → Option AstNode × List CompilerError
  | [], errs => (none, errs)
  | token :: rest, errs =>
    match token.tokenClass with
    | TokenClass.tkIdent =>
      match globals.get token.value with
      | some value => (some value, errs)
      | none =>
        interpLoop globals rest (errs ++
          [⟨ErrorLevel.levelError, ErrorMessage.msgUndeclaredIdentifier,
            token.location, token.value⟩])
    | _ =>
      interpLoop globals rest (errs ++
        [⟨ErrorLevel.levelError, ErrorMessage.msgExpectedIdentifier,
          token.location, ""⟩])

/-- Parser.parseInterpolation (parser.cpp lines 425 to 510): consume the
interpolation token, re-lex its raw text (the lexer is not under src/, so
it enters the model as the function argument lex), create a child
compilation unit whose symbol table is parented to the current one, and run
the restricted mini-parser over the resulting tokens. Lookups and
diagnostics go to the enclosing unit, exactly as in the source. -/
def parseInterpolation (lex : String → List Token) (st : ParserState) :
    Option AstNode × ParserState :=
  let r := expect TokenClass.tkInterpolation true st
  if r.1.isEmptyTok then (none, r.2)
  else
    let body := r.1.value
    let tokens := lex body
    let _subUnitGlobals := (BoundGlobals.root []).setParent r.2.globals
    let res := interpLoop r.2.globals tokens r.2.errors
    (res.1, { r.2 with errors := res.2 })

/-- Parser.parseTerm (parser.cpp lines 197 to 258): single-token-lookahead
predictive dispatch. The empty peek appends an unexpected-end-of-file
diagnostic; open parenthesis, open bracket and float are matched but their
parse functions are commented out in the source, so they produce no
expression and consume nothing; an unrecognized leading token appends an
unexpected-end-of-line or unexpected-token diagnostic and is discarded. -/
def parseTerm (lex : String → List Token) (st : ParserState) :
    Option AstNode × ParserState :=
  let token := st.stream.peek
  if token.isEmptyTok then
    let st1 := addError st
      ⟨ErrorLevel.levelError, ErrorMessage.msgUnexpectedEof, currentLocation st, ""⟩
    let st2 := if st1.stream.hasNext then advanceStream st1 else st1
    (none, st2)
  else if !(matchToken TokenClass.tkIdent false st).1.isEmptyTok then
    parseIdentifier st
  else if !(matchToken TokenClass.tkOpenParenth false st).1.isEmptyTok then
    (none, st)
  else if !(matchToken TokenClass.tkOpenBracket false st).1.isEmptyTok then
    (none, st)
  else if !(matchToken TokenClass.tkInteger false st).1.isEmptyTok then
    parseIntegerLiteral st
  else if !(matchToken TokenClass.tkFloat false st).1.isEmptyTok then
    (none, st)
  else if !(matchToken TokenClass.tkString false st).1.isEmptyTok then
    parseStringLiteral st
  else if !(matchToken TokenClass.tkInterpolation false st).1.isEmptyTok then
    parseInterpolation lex st
  else if !(matchToken TokenClass.tkReg false st).1.isEmptyTok then
    parseRegister st
  else if !(matchToken TokenClass.tkLocal false st).1.isEmptyTok then
    parseLocal st
  else
    let st1 :=
      if token.tokenClass == TokenClass.tkNewline then
        addError st
          ⟨ErrorLevel.levelError, ErrorMessage.msgUnexpectedEol, token.location, ""⟩
      else
        addError st
          ⟨ErrorLevel.levelError, ErrorMessage.msgUnexpectedToken, token.location,
            token.value⟩
    let st2 := if st1.stream.hasNext then advanceStream st1 else st1
    (none, st2)

/-- Parser.parseExpression (parser.cpp lines 189 to 195): delegates to
parseTerm. -/
def parseExpression (lex : String → List Token) (st : ParserState) :
    Option AstNode × ParserState :=
  parseTerm lex st

/-- The jump mnemonic map of Parser.parseCommand (parser.cpp lines 364 to
370). -/
def jumpModeStrings : List (String × JumpMode) :=
  [("jmp", JumpMode.modeNone),
   ("je", JumpMode.jumpIfEqual),
   ("jne", JumpMode.jumpIfNotEqual),
   ("jg", JumpMode.jumpIfGreater),
   ("jge", JumpMode.jumpIfGreaterOrEqual)]

/-- Map find on the jump mnemonic table. -/
def findJumpMode : List (String × JumpMode) → String → Option JumpMode
  | [], _ => none
  | (k, v) :: rest, s => if k = s then some v else findJumpMode rest s

/-- Parser.parseCommand (parser.cpp lines 362 to 423): consume the leading
identifier; a jump mnemonic parses one target expression, cmp parses two
operand expressions with an early null return after a failed first operand,
and any other identifier is un-consumed via rewind and re-parsed as a plain
identifier; the unknown-opcode diagnostic path is commented out in the
source. -/
def parseCommand (lex : String → List Token) (st : ParserState) :
    Option AstNode × ParserState :=
  let r := expect TokenClass.tkIdent true st
  if !r.1.isEmptyTok then
    match findJumpMode jumpModeStrings r.1.value with
    | some mode =>
      let e := parseExpression lex r.2
      match e.1 with
      | none => (none, e.2)
      | some expr => (some (AstNode.jmp expr mode r.1.location), e.2)
    | none =>
      if r.1.value = "cmp" then
        let e1 := parseExpression lex r.2
        match e1.1 with
        | none => (none, e1.2)
        | some left =>
          let e2 := parseExpression lex e1.2
          match e2.1 with
          | none => (none, e2.2)
          | some right => (some (AstNode.cmpStmt left right r.1.location), e2.2)
      else
        parseIdentifier { r.2 with stream := r.2.stream.rewind }
  else
    (none, advanceStream r.2)

/-- The argument loop of Parser.parseDirective (parser.cpp lines 302 to
310): while the stream has a next token that is neither a newline nor an
open brace, parse terms as arguments, stopping at the first failed term. -/
def parseDirectiveArgs (lex : String → List Token) :
    Nat → List AstNode → ParserState → List AstNode × ParserState
  | 0, args, st => (args, st)
  | fuel + 1, args, st =>
    if st.stream.hasNext &&
        (matchToken TokenClass.tkNewline false st).1.isEmptyTok &&
        (matchToken TokenClass.tkOpenBrace false st).1.isEmptyTok then
      let t := parseTerm lex st
      match t.1 with
      | some expr => parseDirectiveArgs lex fuel (args ++ [expr]) t.2
      | none => (args, t.2)
    else
      (args, st)

/-- The brace-delimited body loop of Parser.parseDirective (parser.cpp lines
312 to 332): track brace nesting, append each token's representation and a
space to the body, and consume the closing brace of the outermost level
without appending it. -/
def parseDirectiveBody :
    Nat → Int → String → ParserState → String × ParserState
  | 0, _, body, st => (body, st)
  | fuel + 1, counter, body, st =>
    if st.stream.hasNext then
      if !(matchToken TokenClass.tkOpenBrace false st).1.isEmptyTok then
        parseDirectiveBody fuel (counter + 1)
          (body ++ Token.getRepr st.stream.peek ++ " ") (advanceStream st)
      else if !(matchToken TokenClass.tkCloseBrace false st).1.isEmptyTok then
        if counter - 1 = 0 then (body, advanceStream st)
        else
          parseDirectiveBody fuel (counter - 1)
            (body ++ Token.getRepr st.stream.peek ++ " ") (advanceStream st)
      else
        parseDirectiveBody fuel counter
          (body ++ Token.getRepr st.stream.peek ++ " ") (advanceStream st)
    else
      (body, st)

/-- Parser.parseDirective (parser.cpp lines 297 to 343): consume the
directive token, parse leading argument expressions, then an optional
brace-delimited opaque body. -/
def parseDirective (lex : String → List Token) (fuel : Nat) (st : ParserState) :
    Option AstNode × ParserState :=
  let r := expect TokenClass.tkDirective true st
  if !r.1.isEmptyTok then
    let a := parseDirectiveArgs lex fuel [] r.2
    let b := matchToken TokenClass.tkOpenBrace true a.2
    let c :=
      if !b.1.isEmptyTok then parseDirectiveBody fuel 1 "" b.2
      else ("", b.2)
    (some (AstNode.directive r.1.value a.1 c.1 r.1.location), c.2)
  else
    (none, r.2)

/-- The per-statement predictive dispatch of Parser.parseStatement
(parser.cpp lines 164 to 180): directive, label, identifier-led command, or
bare expression. -/
def parseDispatch (lex : String → List Token) (fuel : Nat) (st1 : ParserState) :
    Option AstNode × ParserState :=
  if !(matchToken TokenClass.tkDirective false st1).1.isEmptyTok then
    parseDirective lex fuel st1
  else if !(matchToken TokenClass.tkLabel false st1).1.isEmptyTok then
    parseLabel st1
  else if !(matchToken TokenClass.tkIdent false st1).1.isEmptyTok then
    parseCommand lex st1
  else
    parseExpression lex st1

/-- Parser.parseStatement (parser.cpp lines 154 to 187): skip statement
terminators, stop at stream end, dispatch on the leading token class
(directive, label, identifier-led command, bare expression), and when a
statement was produced and tokens remain, expect the end of the statement. -/
def parseStatement (lex : String → List Token) (fuel : Nat) (st : ParserState) :
    Option AstNode × ParserState :=
  let st1 := skipStatementTerminators fuel st
  if !st1.stream.hasNext then (none, st1)
  else
    let resPair := parseDispatch lex fuel st1
    match resPair.1 with
    | some res =>
      if resPair.2.stream.hasNext then
        (some res, (expectEndOfStmt fuel resPair.2).2)
      else
        (some res, resPair.2)
    | none => (none, resPair.2)

/-- The statement loop of Parser.parse (parser.cpp lines 133 to 143) with
its two accumulators: while the stream has a next token, parse a statement
and push it to the hoisted list or the other list; a failed statement
breaks the loop. -/
def parseLoopAcc (lex : String → List Token) :
    Nat → List AstNode → List AstNode → ParserState →
    List AstNode × List AstNode × ParserState
  | 0, hoisted, others, st => (hoisted, others, st)
  | fuel + 1, hoisted, others, st =>
    if st.stream.hasNext then
      let r := parseStatement lex fuel st
      match r.1 with
      | some stmt =>
        if stmt.isHoisted then parseLoopAcc lex fuel (hoisted ++ [stmt]) others r.2
        else parseLoopAcc lex fuel hoisted (others ++ [stmt]) r.2
      | none => (hoisted, others, r.2)
    else
      (hoisted, others, st)

/-- Parser.parse (parser.cpp lines 126 to 152): skip leading terminators,
collect statements routing hoisted ones into a separate ordered list, then
push all hoisted statements into the AST sequence before all others. -/
def parse (lex : String → List Token) (fuel : Nat) (st : ParserState) :
    List AstNode × ParserState :=
  let st1 := skipStatementTerminators fuel st
  let r := parseLoopAcc lex fuel [] [] st1
  (r.1 ++ r.2.1, r.2.2)

/-- Follows the spec's words (section 4.3, first pass): the plain ordered
collection of top-level statements in parse order, used as the reference
against which the two-accumulator loop of parse is compared. -/
def collectStatements (lex : String → List Token) :
    Nat → ParserState → List AstNode × ParserState
  | 0, st => ([], st)
  | fuel + 1, st =>
    if st.stream.hasNext then
      let r := parseStatement lex fuel st
      match r.1 with
      | some stmt =>
        let rest := collectStatements lex fuel r.2
        (stmt :: rest.1, rest.2)
      | none => ([], r.2)
    else
      ([], st)

/-- The initial parser state used by CompilerHelper.buildSourceFile
(main.cpp lines 51 to 60): a fresh token stream cursor at zero, an empty
diagnostic list and an empty root symbol table of a fresh compilation
unit. -/
def initState (tokens : List Token) : ParserState :=
  ⟨⟨tokens, 0⟩, [], BoundGlobals.root []⟩

/-- Modelled from the spec: the Analyzer visit of one node (analyzer.cpp is
not under src/). Per spec section 4.5 the analyzer flags references to
undeclared identifiers against the active symbol table; a jump or compare
statement visits its operand expressions; a label declaration confirms its
entry, already registered at parse time; directive bodies are opaque
payloads and literals and data locations need no structural check. -/
def analyzeNode (globals : BoundGlobals) : AstNode → List CompilerError
  | AstNode.identifier name loc =>
    if (globals.get name).isSome then []
    else [⟨ErrorLevel.levelError, ErrorMessage.msgUndeclaredIdentifier, loc, name⟩]
  | AstNode.jmp target _ _ => analyzeNode globals target
  | AstNode.cmpStmt left right _ =>
    analyzeNode globals left ++ analyzeNode globals right
  | _ => []

/-- Modelled from the spec: the Analyzer pass, a single forward walk over
the AST sequence accumulating diagnostics and never halting early
(spec section 4.5). -/
def analyze (globals : BoundGlobals) (stmts : List AstNode) : List CompilerError :=
  stmts.foldl (fun acc s => acc ++ analyzeNode globals s) []

/-- Modelled from the spec: opcode byte chosen for each jump mode by the
emitter (compiler sources are not under src/); the concrete byte values are
representative, the claims depend only on the chunk structure. -/
def opcodeOfJumpMode : JumpMode → Nat
  | JumpMode.modeNone => 48
  | JumpMode.jumpIfEqual => 49
  | JumpMode.jumpIfNotEqual => 50
  | JumpMode.jumpIfGreater => 51
  | JumpMode.jumpIfGreaterOrEqual => 52

/-- Clamp an integer slot index into one operand byte. -/
def intToByte (i : Int) : Nat := (i % 256).toNat

/-- Modelled from the spec: the encoded location of one operand expression
(spec section 4.6, an opcode followed by the operand's encoded location).
A data location encodes its storage class and slot; label and identifier
operands encode their resolved data slot, abstracted here to a single
reference byte. -/
def encodeOperand : AstNode → List Nat
  | AstNode.dataLocation objLoc _ =>
    (match objLoc.dataStoreLocation with
     | DataStoreLocation.nullDataStore => [0]
     | DataStoreLocation.staticDataStore => [1]
     | DataStoreLocation.localDataStore => [2]
     | DataStoreLocation.registerDataStore => [3]) ++ [intToByte objLoc.location]
  | AstNode.integerLiteral v _ => [intToByte v]
  | _ => [255]

/-- Modelled from the spec: the bytes one statement's build step appends to
the bytecode chunk (spec section 4.6). Jump and compare statements emit an
opcode followed by their operands' encoded locations; a label declaration
binds an allocator-assigned slot and emits no instruction bytes; a
directive registers its payload and emits no instruction bytes. -/
def emitNode : AstNode → List Nat
  | AstNode.jmp target mode _ => opcodeOfJumpMode mode :: encodeOperand target
  | AstNode.cmpStmt left right _ => 64 :: (encodeOperand left ++ encodeOperand right)
  | _ => []

/-- Modelled from the spec: the Compiler pass, a single forward walk over
the AST sequence appending each statement's encoded bytes to a fresh
bytecode chunk (spec sections 3 and 4.6). -/
def emitChunk (stmts : List AstNode) : List Nat :=
  stmts.foldl (fun acc s => acc ++ emitNode s) []

/-- Result of one compilation: the success flag of the returned pair, the
produced bytecode chunk when emission ran, and the final diagnostic list. -/
structure CompilationResult where
  success : Bool
  chunk : Option (List Nat)
  errors : List CompilerError

/-- The diagnostic list of the unit after lexing, parsing and analysis and
before sorting, as it stands at main.cpp line 69. -/
def analysisErrors (lex : String → List Token) (fuel : Nat)
    (tokens : List Token) : List CompilerError :=
  let r := parse lex fuel (initState tokens)
  r.2.errors ++ analyze r.2.globals r.1

/-- CompilerHelper.buildSourceFile (main.cpp lines 29 to 98) from the lexed
token stream on: parse, analyze, sort the diagnostic list, and only when
the list has no fatal errors run the compiler emission pass over the AST
sequence into a fresh bytecode chunk and succeed; otherwise produce no
chunk and fail. -/
def buildSourceFile (lex : String → List Token) (fuel : Nat)
    (tokens : List Token) : CompilationResult :=
  let r := parse lex fuel (initState tokens)
  let errs := r.2.errors ++ analyze r.2.globals r.1
  let sorted := sortErrors errs
  if hasFatalErrors sorted then
    ⟨false, none, sorted⟩
  else
    ⟨true, some (emitChunk r.1), sorted⟩

/-- Modelled from the spec: one write-once object-location store of the
emission pass (ast_expression.hpp keeps m_objLoc per expression; the build
implementations are not under src/). The pass is modelled as a fold over
the assignment events of a single forward walk, each event giving a node
identifier its object location. -/
def setAssignment (acc : List (Nat × ObjLoc)) (n : Nat) (loc : ObjLoc) :
    List (Nat × ObjLoc) :=
  match acc with
  | [] => [(n, loc)]
  | (k, w) :: rest =>
    if k = n then (k, loc) :: rest else (k, w) :: setAssignment rest n loc

/-- Look up the object location currently assigned to a node identifier. -/
def getAssignment : List (Nat × ObjLoc) → Nat → Option ObjLoc
  | [], _ => none
  | (k, v) :: rest, n => if k = n then some v else getAssignment rest n

/-- Modelled from the spec: run the emission pass's object-location
assignments in order (spec section 4.6, a single forward pass assigning
each expression's Object Location exactly once). -/
def runEmissionAssignments (events : List (Nat × ObjLoc)) : List (Nat × ObjLoc) :=
  events.foldl (fun acc e => setAssignment acc e.1 e.2) []

/-- Error lists only ever grow by appending during parsing: st1 extends st. -/
def ErrExt (st st1 : ParserState) : Prop :=
  ∃ tl, st1.errors = st.errors ++ tl

/-- Invariant of the parser run: every expression stored in the bound
globals is an AstLabel node, since parseLabel is the only writer. -/
def labelsOnly : BoundGlobals → Prop
  | BoundGlobals.root entries => ∀ p ∈ entries, ∃ n ℓ, p.2 = AstNode.label n ℓ
  | BoundGlobals.child entries parent =>
      (∀ p ∈ entries, ∃ n ℓ, p.2 = AstNode.label n ℓ) ∧ labelsOnly parent

/-- A node that is not a label declaration statement. -/
def notLabelDecl (v : AstNode) : Prop :=
  ∀ n l ℓ, v ≠ AstNode.labelDecl n l ℓ

/-- The sequential first-pass collection of Parser.parse, starting from the
driver's initial state. -/
def collectedOf (lex : String → List Token) (fuel : Nat) (tokens : List Token) :
    List AstNode :=
  (collectStatements lex fuel (skipStatementTerminators fuel (initState tokens))).1

/-- The parser state after the sequential first-pass collection. -/
def collectFinalState (lex : String → List Token) (fuel : Nat)
    (tokens : List Token) : ParserState :=
  (collectStatements lex fuel (skipStatementTerminators fuel (initState tokens))).2

/-- A lexer stub for concrete runs whose source contains no interpolation
spans. -/
def lexNone : String → List Token := fun _ => []

/-- Concrete test locations. -/
def loc0 : SourceLocation := ⟨0, 0, "test.pasm"⟩

/-- Concrete test locations. -/
def loc1 : SourceLocation := ⟨0, 4, "test.pasm"⟩

/-- Concrete test locations. -/
def loc2 : SourceLocation := ⟨1, 0, "test.pasm"⟩

/-- Concrete test locations. -/
def loc3 : SourceLocation := ⟨1, 4, "test.pasm"⟩

/-- Token stream of the malformed source `cmp` followed by a newline and
nothing else: the compare mnemonic with both operand expressions missing. -/
def cmpToks : List Token :=
  [⟨TokenClass.tkIdent, "cmp", loc0⟩, ⟨TokenClass.tkNewline, "", loc1⟩]

/-- Token stream whose first statement fails to parse (a stray close brace)
followed by a well-formed label declaration statement. -/
def strayToks : List Token :=
  [⟨TokenClass.tkCloseBrace, "", loc0⟩, ⟨TokenClass.tkNewline, "", loc1⟩,
   ⟨TokenClass.tkLabel, "lbl", loc2⟩, ⟨TokenClass.tkNewline, "", loc3⟩]

/-- Token stream of `jmp lbl` followed by the declaration of `lbl`: a
forward reference that must resolve by hoisting. -/
def fwdJumpToks : List Token :=
  [⟨TokenClass.tkIdent, "jmp", loc0⟩, ⟨TokenClass.tkIdent, "lbl", loc1⟩,
   ⟨TokenClass.tkNewline, "", loc1⟩, ⟨TokenClass.tkLabel, "lbl", loc2⟩]

/-- Token stream holding a single plain identifier that is no mnemonic. -/
def identToks : List Token := [⟨TokenClass.tkIdent, "foo", loc0⟩]

/-- Token stream holding a register token with index text 7. -/
def regToks : List Token := [⟨TokenClass.tkReg, "7", loc0⟩]

/-- Token stream holding a local-variable token with index text 7. -/
def localToks : List Token := [⟨TokenClass.tkLocal, "7", loc1⟩]

/-- Token stream holding a single interpolation token with body text x. -/
def interpToks : List Token := [⟨TokenClass.tkInterpolation, "x", loc0⟩]

/-- A lexer stub whose every output is the single identifier token x. -/
def lexIdentX : String → List Token := fun _ => [⟨TokenClass.tkIdent, "x", loc1⟩]

/-- A lexer stub whose every output is a single integer token. -/
def lexIntTok : String → List Token := fun _ => [⟨TokenClass.tkInteger, "1", loc1⟩]

/-- Parser state at an interpolation token with the body identifier x bound
to a label in the unit's globals. -/
def stInterpDecl : ParserState :=
  ⟨⟨interpToks, 0⟩, [], BoundGlobals.root [("x", AstNode.label "x" loc2)]⟩

/-- Parser state at an interpolation token with empty globals. -/
def stInterpUndecl : ParserState :=
  ⟨⟨interpToks, 0⟩, [], BoundGlobals.root []⟩

/-- The empty sentinel token is empty. -/
@[simp]
theorem emptyTok_isEmptyTok : Token.EMPTY.isEmptyTok = true := rfl

/-- Emptiness of a token is emptiness of its class. -/
theorem isEmptyTok_false_iff (t : Token) :
    t.isEmptyTok = false ↔ t.tokenClass ≠ TokenClass.tkEmpty := by
  simp [Token.isEmptyTok]

/-- Appending an error leaves the stream untouched. -/
@[simp]
theorem stream_addError (st : ParserState) (e : CompilerError) :
    (addError st e).stream = st.stream := rfl

/-- Appending an error appends to the error list. -/
@[simp]
theorem errors_addError (st : ParserState) (e : CompilerError) :
    (addError st e).errors = st.errors ++ [e] := rfl

/-- Appending an error leaves the globals untouched. -/
@[simp]
theorem globals_addError (st : ParserState) (e : CompilerError) :
    (addError st e).globals = st.globals := rfl

/-- Advancing leaves the error list untouched. -/
@[simp]
theorem errors_advanceStream (st : ParserState) :
    (advanceStream st).errors = st.errors := rfl

/-- Advancing leaves the globals untouched. -/
@[simp]
theorem globals_advanceStream (st : ParserState) :
    (advanceStream st).globals = st.globals := rfl

/-- Advancing leaves the token buffer untouched. -/
@[simp]
theorem tokens_advanceStream (st : ParserState) :
    (advanceStream st).stream.tokens = st.stream.tokens := by
  unfold advanceStream TokenStream.next
  split <;> rfl

/-- A non-empty peek implies the cursor is strictly inside the buffer. -/
theorem peek_pos_lt (st : ParserState) (h : st.stream.peek.isEmptyTok = false) :
    st.stream.pos < st.stream.tokens.length := by
  by_contra hge
  have hnone : st.stream.tokens.get? (st.stream.pos + 0) = none :=
    List.get?_eq_none.mpr (by omega)
  unfold TokenStream.peek TokenStream.peekAt at h
  rw [hnone] at h
  simp at h

/-- A non-empty peek implies hasNext. -/
theorem hasNext_of_peek (st : ParserState)
    (h : st.stream.peek.isEmptyTok = false) : st.stream.hasNext = true := by
  unfold TokenStream.hasNext
  simp [peek_pos_lt st h]

/-- Advancing under a live cursor increments the position by one. -/
theorem advanceStream_eq_of_lt (st : ParserState)
    (h : st.stream.pos < st.stream.tokens.length) :
    advanceStream st =
      { st with stream := { st.stream with pos := st.stream.pos + 1 } } := by
  unfold advanceStream TokenStream.next
  rw [if_pos h]

/-- A class mismatch makes match return the empty token and keep the state. -/
theorem matchToken_miss (tc : TokenClass) (read : Bool) (st : ParserState)
    (h : st.stream.peek.tokenClass ≠ tc) :
    matchToken tc read st = (Token.EMPTY, st) := by
  unfold matchToken
  have hb : (st.stream.peek.tokenClass == tc) = false := by simp [h]
  simp [hb]

/-- An empty peek makes match return the empty token and keep the state. -/
theorem matchToken_missEmpty (tc : TokenClass) (read : Bool) (st : ParserState)
    (h : st.stream.peek.isEmptyTok = true) :
    matchToken tc read st = (Token.EMPTY, st) := by
  unfold matchToken
  simp [h]

/-- A class hit with read set consumes the token. -/
theorem matchToken_hit (tc : TokenClass) (st : ParserState)
    (h1 : st.stream.peek.isEmptyTok = false)
    (h2 : st.stream.peek.tokenClass = tc) :
    matchToken tc true st = (st.stream.peek, advanceStream st) := by
  unfold matchToken
  simp [h1, h2, hasNext_of_peek st h1]

/-- A class hit without read peeks without consuming. -/
theorem matchToken_hit_noread (tc : TokenClass) (st : ParserState)
    (h1 : st.stream.peek.isEmptyTok = false)
    (h2 : st.stream.peek.tokenClass = tc) :
    matchToken tc false st = (st.stream.peek, st) := by
  unfold matchToken
  simp [h1, h2]

/-- The second component of match is the input state or its advancement. -/
theorem matchToken_snd (tc : TokenClass) (read : Bool) (st : ParserState) :
    (matchToken tc read st).2 = st ∨ (matchToken tc read st).2 = advanceStream st := by
  simp only [matchToken]
  by_cases h1 : (!st.stream.peek.isEmptyTok && st.stream.peek.tokenClass == tc) = true
  · rw [if_pos h1]
    by_cases h2 : (read && st.stream.hasNext) = true
    · rw [if_pos h2]; right; rfl
    · rw [if_neg h2]; left; rfl
  · rw [if_neg h1]; left; rfl

/-- Expect on a class hit with read set consumes the token and appends no
diagnostic. -/
theorem expect_hit (tc : TokenClass) (st : ParserState)
    (h1 : st.stream.peek.isEmptyTok = false)
    (h2 : st.stream.peek.tokenClass = tc) :
    expect tc true st = (st.stream.peek, advanceStream st) := by
  unfold expect
  rw [matchToken_hit tc st h1 h2]
  simp [h1]

/-- C10: Parser.match advances the token-stream cursor exactly when the
peeked token is non-empty, has the requested class, read is set and the
stream has a next token; on a class mismatch it returns the empty token and
leaves the whole parser state unchanged; and Parser.matchAhead never moves
the cursor. -/
theorem match_frame_conditions (tc : TokenClass) (read : Bool) (n : Nat)
    (st : ParserState) :
    ((matchToken tc read st).2.stream.pos =
      if st.stream.peek.isEmptyTok = false ∧ st.stream.peek.tokenClass = tc ∧
          read = true ∧ st.stream.hasNext = true
       then st.stream.pos + 1 else st.stream.pos)
    ∧ (st.stream.peek.tokenClass ≠ tc →
        matchToken tc read st = (Token.EMPTY, st))
    ∧ (matchAhead tc n st).2 = st := by
  refine ⟨?_, fun h => matchToken_miss tc read st h, ?_⟩
  case refine_2 =>
    simp only [matchAhead]
    split <;> rfl
  · by_cases h1 : st.stream.peek.isEmptyTok = false
    · by_cases h2 : st.stream.peek.tokenClass = tc
      · cases read with
        | false =>
          rw [matchToken_hit_noread tc st h1 h2]
          rw [if_neg (by simp)]
        | true =>
          rw [matchToken_hit tc st h1 h2]
          rw [advanceStream_eq_of_lt st (peek_pos_lt st h1)]
          rw [if_pos ⟨h1, h2, rfl, hasNext_of_peek st h1⟩]
      · rw [matchToken_miss tc read st h2]
        rw [if_neg (by tauto)]
    · rw [matchToken_missEmpty tc read st (by revert h1; cases st.stream.peek.isEmptyTok <;> simp)]
      rw [if_neg (by tauto)]

/-- Witness for C10 at a concrete input: the peek of the cmp token stream is
an identifier, so matching a newline there returns the empty token, keeps
the state, and does not move the cursor. -/
theorem match_frame_conditions_witness :
    matchToken TokenClass.tkNewline true (initState cmpToks) =
      (Token.EMPTY, initState cmpToks)
    ∧ (matchToken TokenClass.tkNewline true (initState cmpToks)).2.stream.pos =
      (initState cmpToks).stream.pos := by
  have h := match_frame_conditions TokenClass.tkNewline true 0 (initState cmpToks)
  exact ⟨h.2.1 (by decide), h.1.trans (if_neg (by decide))⟩

/-- C6: at an unrecognized leading token, parseTerm appends exactly one
diagnostic, unexpected-end-of-line for a newline and otherwise
unexpected-token carrying the token's text, discards exactly one token, and
returns no expression; errors aside, the rest of the parser state is
untouched. -/
theorem parseTerm_unrecognized_token (lex : String → List Token)
    (st : ParserState)
    (hcls : st.stream.peek.tokenClass ∉
      [TokenClass.tkEmpty, TokenClass.tkIdent, TokenClass.tkOpenParenth,
       TokenClass.tkOpenBracket, TokenClass.tkInteger, TokenClass.tkFloat,
       TokenClass.tkString, TokenClass.tkInterpolation, TokenClass.tkReg,
       TokenClass.tkLocal]) :
    parseTerm lex st =
      (none,
       { st with
         stream := { st.stream with pos := st.stream.pos + 1 },
         errors := st.errors ++
           [if st.stream.peek.tokenClass = TokenClass.tkNewline then
              ⟨ErrorLevel.levelError, ErrorMessage.msgUnexpectedEol,
                st.stream.peek.location, ""⟩
            else
              ⟨ErrorLevel.levelError, ErrorMessage.msgUnexpectedToken,
                st.stream.peek.location, st.stream.peek.value⟩] }) := by
  simp only [List.mem_cons, List.not_mem_nil, or_false, not_or] at hcls
  obtain ⟨h0, h1, h2, h3, h4, h5, h6, h7, h8, h9⟩ := hcls
  have hne : st.stream.peek.isEmptyTok = false := (isEmptyTok_false_iff _).mpr h0
  have hlt := peek_pos_lt st hne
  simp only [parseTerm, hne, Bool.false_eq_true, if_false,
    matchToken_miss TokenClass.tkIdent false st h1,
    matchToken_miss TokenClass.tkOpenParenth false st h2,
    matchToken_miss TokenClass.tkOpenBracket false st h3,
    matchToken_miss TokenClass.tkInteger false st h4,
    matchToken_miss TokenClass.tkFloat false st h5,
    matchToken_miss TokenClass.tkString false st h6,
    matchToken_miss TokenClass.tkInterpolation false st h7,
    matchToken_miss TokenClass.tkReg false st h8,
    matchToken_miss TokenClass.tkLocal false st h9,
    emptyTok_isEmptyTok, Bool.not_true]
  by_cases hnl : st.stream.peek.tokenClass = TokenClass.tkNewline
  · simp only [hnl, if_pos rfl, beq_self_eq_true, if_true]
    have hstream : (addError st
        ⟨ErrorLevel.levelError, ErrorMessage.msgUnexpectedEol,
          st.stream.peek.location, ""⟩).stream.hasNext = true :=
      hasNext_of_peek st hne
    rw [if_pos hstream,
      advanceStream_eq_of_lt _ (by simpa using hlt)]
    rfl
  · have hb : (st.stream.peek.tokenClass == TokenClass.tkNewline) = false := by
      simp [hnl]
    simp only [hb, Bool.false_eq_true, if_false, if_neg hnl]
    have hstream : (addError st
        ⟨ErrorLevel.levelError, ErrorMessage.msgUnexpectedToken,
          st.stream.peek.location, st.stream.peek.value⟩).stream.hasNext = true :=
      hasNext_of_peek st hne
    rw [if_pos hstream,
      advanceStream_eq_of_lt _ (by simpa using hlt)]
    rfl

/-- Witness for C6: a stray close brace is unrecognized; parseTerm reports
one unexpected-token diagnostic carrying its text, consumes it, and returns
no expression. -/
theorem parseTerm_unrecognized_token_witness :
    parseTerm lexNone (initState strayToks) =
      (none,
       { initState strayToks with
         stream := { (initState strayToks).stream with pos := 1 },
         errors :=
           [⟨ErrorLevel.levelError, ErrorMessage.msgUnexpectedToken, loc0, ""⟩] }) := by
  have h := parseTerm_unrecognized_token lexNone (initState strayToks) (by decide)
  rw [h]
  rfl

/-- C7: an identifier that is neither a jump mnemonic nor cmp is
un-consumed via a single rewind and re-parsed as a plain identifier
reference; no diagnostic of any kind is appended and the net cursor motion
is exactly the one consumed identifier token. -/
theorem parseCommand_identifier_fallback (lex : String → List Token)
    (st : ParserState) (s : String) (ℓ : SourceLocation)
    (hp : st.stream.peek = ⟨TokenClass.tkIdent, s, ℓ⟩)
    (hs : s ∉ ["jmp", "je", "jne", "jg", "jge", "cmp"]) :
    parseCommand lex st =
      (some (AstNode.identifier s ℓ),
        { st with stream := { st.stream with pos := st.stream.pos + 1 } }) := by
  simp only [List.mem_cons, List.not_mem_nil, or_false, not_or] at hs
  obtain ⟨hjmp, hje, hjne, hjg, hjge, hcmp⟩ := hs
  have hne : st.stream.peek.isEmptyTok = false := by
    rw [hp]; rfl
  have hcl : st.stream.peek.tokenClass = TokenClass.tkIdent := by rw [hp]
  have hlt := peek_pos_lt st hne
  have hfind : findJumpMode jumpModeStrings s = none := by
    simp only [jumpModeStrings, findJumpMode]
    rw [if_neg (fun h => hjmp h.symm), if_neg (fun h => hje h.symm),
      if_neg (fun h => hjne h.symm), if_neg (fun h => hjg h.symm),
      if_neg (fun h => hjge h.symm)]
  have hrewound :
      { advanceStream st with stream := (advanceStream st).stream.rewind } = st := by
    rw [advanceStream_eq_of_lt st hlt]
    simp [TokenStream.rewind]
  have hpi : parseIdentifier st = (some (AstNode.identifier s ℓ), advanceStream st) := by
    simp only [parseIdentifier]
    rw [expect_hit TokenClass.tkIdent st hne hcl, hp]
    rfl
  simp only [parseCommand]
  rw [expect_hit TokenClass.tkIdent st hne hcl, hp]
  rw [if_pos (show (!(Token.mk TokenClass.tkIdent s ℓ).isEmptyTok) = true from rfl)]
  rw [hfind]
  dsimp only
  rw [if_neg hcmp, hrewound, hpi, advanceStream_eq_of_lt st hlt]

/-- Witness for C7: the identifier foo is no mnemonic; it is re-parsed as a
plain identifier reference with no diagnostic. -/
theorem parseCommand_identifier_fallback_witness :
    parseCommand lexNone (initState identToks) =
      (some (AstNode.identifier "foo" loc0),
        { initState identToks with
          stream := { (initState identToks).stream with pos := 1 } }) := by
  have h := parseCommand_identifier_fallback lexNone (initState identToks)
    "foo" loc0 (by decide) (by decide)
  rw [h]
  rfl

/-- C8: a register token and a local-variable token with the same numeric
index text yield data-location nodes whose Object Locations carry equal
slot numbers (both the parsed index) but distinct, non-equal storage
classes. -/
theorem register_local_distinct_store (stR stL : ParserState) (s : String)
    (n : Int) (ℓr ℓl : SourceLocation)
    (hR : stR.stream.peek = ⟨TokenClass.tkReg, s, ℓr⟩)
    (hL : stL.stream.peek = ⟨TokenClass.tkLocal, s, ℓl⟩)
    (hn : readIntValue s = n) :
    (parseRegister stR).1 =
      some (AstNode.dataLocation
        ⟨n, DataStoreLocation.registerDataStore⟩ ℓr)
    ∧ (parseLocal stL).1 =
      some (AstNode.dataLocation
        ⟨n, DataStoreLocation.localDataStore⟩ ℓl)
    ∧ (ObjLoc.mk n DataStoreLocation.registerDataStore).location =
      (ObjLoc.mk n DataStoreLocation.localDataStore).location
    ∧ DataStoreLocation.registerDataStore ≠ DataStoreLocation.localDataStore := by
  have hneR : stR.stream.peek.isEmptyTok = false := by rw [hR]; rfl
  have hclR : stR.stream.peek.tokenClass = TokenClass.tkReg := by rw [hR]
  have hneL : stL.stream.peek.isEmptyTok = false := by rw [hL]; rfl
  have hclL : stL.stream.peek.tokenClass = TokenClass.tkLocal := by rw [hL]
  refine ⟨?_, ?_, rfl, by decide⟩
  · simp only [parseRegister]
    rw [expect_hit TokenClass.tkReg stR hneR hclR, hR]
    rw [if_pos (show (!(Token.mk TokenClass.tkReg s ℓr).isEmptyTok) = true from rfl)]
    rw [hn]
  · simp only [parseLocal]
    rw [expect_hit TokenClass.tkLocal stL hneL hclL, hL]
    rw [if_pos (show (!(Token.mk TokenClass.tkLocal s ℓl).isEmptyTok) = true from rfl)]
    rw [hn]

/-- Witness for C8: register 7 and local 7 parse to Object Locations with
the same slot 7 and the distinct register and local storage classes. -/
theorem register_local_distinct_store_witness :
    (parseRegister (initState regToks)).1 =
      some (AstNode.dataLocation
        ⟨7, DataStoreLocation.registerDataStore⟩ loc0)
    ∧ (parseLocal (initState localToks)).1 =
      some (AstNode.dataLocation
        ⟨7, DataStoreLocation.localDataStore⟩ loc1)
    ∧ (ObjLoc.mk 7 DataStoreLocation.registerDataStore).location =
      (ObjLoc.mk 7 DataStoreLocation.localDataStore).location
    ∧ DataStoreLocation.registerDataStore ≠ DataStoreLocation.localDataStore :=
  register_local_distinct_store (initState regToks) (initState localToks)
    "7" 7 loc0 loc1 (by decide) (by decide) (by decide)

/-- C4: for an interpolation token whose body lexes to a single token, the
mini-parser resolves a declared identifier to the expression bound to it in
the parent-chained symbol table with no diagnostic; an undeclared
identifier produces exactly one undeclared-identifier diagnostic and no
value; any non-identifier token kind produces exactly one
expected-identifier diagnostic and no value. -/
theorem parseInterpolation_resolution (lex : String → List Token)
    (st : ParserState) (body : String) (ℓ : SourceLocation) (t : Token)
    (hp : st.stream.peek = ⟨TokenClass.tkInterpolation, body, ℓ⟩)
    (hlex : lex body = [t]) :
    (∀ v, t.tokenClass = TokenClass.tkIdent →
      st.globals.get t.value = some v →
      parseInterpolation lex st =
        (some v, { st with stream := { st.stream with pos := st.stream.pos + 1 } }))
    ∧ (t.tokenClass = TokenClass.tkIdent → st.globals.get t.value = none →
      parseInterpolation lex st =
        (none, { st with
          stream := { st.stream with pos := st.stream.pos + 1 },
          errors := st.errors ++
            [⟨ErrorLevel.levelError, ErrorMessage.msgUndeclaredIdentifier,
              t.location, t.value⟩] }))
    ∧ (t.tokenClass ≠ TokenClass.tkIdent →
      parseInterpolation lex st =
        (none, { st with
          stream := { st.stream with pos := st.stream.pos + 1 },
          errors := st.errors ++
            [⟨ErrorLevel.levelError, ErrorMessage.msgExpectedIdentifier,
              t.location, ""⟩] })) := by
  obtain ⟨tc, tv, tl⟩ := t
  have hne : st.stream.peek.isEmptyTok = false := by rw [hp]; rfl
  have hcl : st.stream.peek.tokenClass = TokenClass.tkInterpolation := by rw [hp]
  have hlt := peek_pos_lt st hne
  have hbase : ∀ res,
      interpLoop st.globals [Token.mk tc tv tl] st.errors = res →
      parseInterpolation lex st = (res.1, { advanceStream st with errors := res.2 }) := by
    intro res hres
    simp only [parseInterpolation]
    rw [expect_hit TokenClass.tkInterpolation st hne hcl, hp]
    rw [if_neg (show ¬((Token.mk TokenClass.tkInterpolation body ℓ).isEmptyTok = true)
      from fun h => Bool.noConfusion h)]
    dsimp only
    rw [hlex]
    rw [show (advanceStream st).globals = st.globals from rfl,
      show (advanceStream st).errors = st.errors from rfl, hres]
  refine ⟨?_, ?_, ?_⟩
  · intro v hc hget
    subst hc
    have hloop : interpLoop st.globals [Token.mk TokenClass.tkIdent tv tl] st.errors =
        (some v, st.errors) := by
      simp only [interpLoop]
      rw [hget]
    rw [hbase _ hloop, advanceStream_eq_of_lt st hlt]
  · intro hc hget
    subst hc
    have hloop : interpLoop st.globals [Token.mk TokenClass.tkIdent tv tl] st.errors =
        (none, st.errors ++
          [⟨ErrorLevel.levelError, ErrorMessage.msgUndeclaredIdentifier, tl, tv⟩]) := by
      simp only [interpLoop]
      rw [hget]
    rw [hbase _ hloop, advanceStream_eq_of_lt st hlt]
  · intro hc
    have hloop : interpLoop st.globals [Token.mk tc tv tl] st.errors =
        (none, st.errors ++
          [⟨ErrorLevel.levelError, ErrorMessage.msgExpectedIdentifier, tl, ""⟩]) := by
      cases tc <;>
        first
          | exact absurd rfl hc
          | (simp only [interpLoop]; try rfl)
    rw [hbase _ hloop, advanceStream_eq_of_lt st hlt]

/-- Witness for C4: the body identifier x resolves to its bound label when
declared; undeclared it yields exactly one undeclared-identifier
diagnostic; an integer body token yields exactly one expected-identifier
diagnostic. -/
theorem parseInterpolation_resolution_witness :
    parseInterpolation lexIdentX stInterpDecl =
      (some (AstNode.label "x" loc2),
        ⟨⟨interpToks, 1⟩, [], BoundGlobals.root [("x", AstNode.label "x" loc2)]⟩)
    ∧ parseInterpolation lexIdentX stInterpUndecl =
      (none, ⟨⟨interpToks, 1⟩,
        [⟨ErrorLevel.levelError, ErrorMessage.msgUndeclaredIdentifier, loc1, "x"⟩],
        BoundGlobals.root []⟩)
    ∧ parseInterpolation lexIntTok stInterpDecl =
      (none, ⟨⟨interpToks, 1⟩,
        [⟨ErrorLevel.levelError, ErrorMessage.msgExpectedIdentifier, loc1, ""⟩],
        BoundGlobals.root [("x", AstNode.label "x" loc2)]⟩) := by
  refine ⟨?_, ?_, ?_⟩
  · have h := (parseInterpolation_resolution lexIdentX stInterpDecl "x" loc0
      (Token.mk TokenClass.tkIdent "x" loc1) rfl rfl).1
      (AstNode.label "x" loc2) rfl rfl
    rw [h]
    rfl
  · have h := (parseInterpolation_resolution lexIdentX stInterpUndecl "x" loc0
      (Token.mk TokenClass.tkIdent "x" loc1) rfl rfl).2.1 rfl rfl
    rw [h]
    rfl
  · have h := (parseInterpolation_resolution lexIntTok stInterpDecl "x" loc0
      (Token.mk TokenClass.tkInteger "1" loc1) rfl rfl).2.2 (by decide)
    rw [h]
    rfl

/-- C5 counterexample: for the malformed statement cmp with no operands the
parser appends exactly one diagnostic, not one per missing operand (two):
parseCommand returns as soon as the first operand expression fails. -/
theorem cmp_missing_operands_counterexample :
    (parse lexNone 8 (initState cmpToks)).2.errors.length = 1
    ∧ ¬((parse lexNone 8 (initState cmpToks)).2.errors.length = 2)
    ∧ (buildSourceFile lexNone 8 cmpToks).chunk = none :=
  ⟨rfl, by decide, rfl⟩

/-- C5 as amended: for the malformed statement cmp with no operands the
parser appends one diagnostic for the first missing operand expression
(parseCommand returns before attempting the second), no bytecode chunk is
emitted, and the parser still consumes the tokens and terminates with the
stream exhausted. -/
theorem cmp_missing_operands_behavior :
    parse lexNone 8 (initState cmpToks) =
      ([], ⟨⟨cmpToks, 2⟩,
        [⟨ErrorLevel.levelError, ErrorMessage.msgUnexpectedEol, loc1, ""⟩],
        BoundGlobals.root []⟩)
    ∧ (buildSourceFile lexNone 8 cmpToks).chunk = none
    ∧ (parse lexNone 8 (initState cmpToks)).2.stream.hasNext = false :=
  ⟨rfl, rfl, by decide⟩

/-- One error inserted into a list is seen by any. -/
theorem any_insertError (p : CompilerError → Bool) (e : CompilerError)
    (l : List CompilerError) :
    (insertError e l).any p = (p e || l.any p) := by
  induction l with
  | nil => simp [insertError]
  | cons x xs ih =>
    simp only [insertError]
    by_cases h : errorLocLe e x = true
    · rw [if_pos h]
      simp
    · rw [if_neg h]
      simp [ih, Bool.or_left_comm]

/-- Sorting the diagnostic list by location preserves any. -/
theorem any_sortErrors (p : CompilerError → Bool) (l : List CompilerError) :
    (sortErrors l).any p = l.any p := by
  induction l with
  | nil => rfl
  | cons x xs ih =>
    simp only [sortErrors, any_insertError, ih, List.any_cons]

/-- Fatality of the diagnostic list is invariant under location sorting. -/
theorem hasFatalErrors_sortErrors (l : List CompilerError) :
    hasFatalErrors (sortErrors l) = hasFatalErrors l :=
  any_sortErrors _ l

/-- C1 counterexample: the empty source yields zero diagnostics, hence only
recoverable ones, yet the produced bytecode chunk is empty, refuting the
claimed non-emptiness; emission nevertheless ran and succeeded. -/
theorem build_empty_input_counterexample :
    (buildSourceFile lexNone 1 []).errors = []
    ∧ (buildSourceFile lexNone 1 []).chunk = some []
    ∧ (buildSourceFile lexNone 1 []).success = true :=
  ⟨rfl, rfl, rfl⟩

/-- C1 as amended: the emission pass runs and a bytecode chunk is produced
exactly when the diagnostic list holds no fatal entry after lexing, parsing
and analysis; with a fatal entry no chunk is produced; when emission runs
the chunk is the concatenation of the statements' encodings and may be
empty, as for an empty source. -/
theorem build_chunk_iff_no_fatal (lex : String → List Token) (fuel : Nat)
    (tokens : List Token) :
    (buildSourceFile lex fuel tokens).chunk =
      (if hasFatalErrors (analysisErrors lex fuel tokens) = true then none
       else some (emitChunk (parse lex fuel (initState tokens)).1))
    ∧ (buildSourceFile lex fuel tokens).success =
      !hasFatalErrors (analysisErrors lex fuel tokens)
    ∧ (buildSourceFile lex fuel tokens).errors =
      sortErrors (analysisErrors lex fuel tokens) := by
  simp only [buildSourceFile, analysisErrors]
  rw [hasFatalErrors_sortErrors]
  by_cases hf : hasFatalErrors
      ((parse lex fuel (initState tokens)).2.errors ++
        analyze (parse lex fuel (initState tokens)).2.globals
          (parse lex fuel (initState tokens)).1) = true
  · simp [if_pos hf, hf]
  · have hf0 : hasFatalErrors
        ((parse lex fuel (initState tokens)).2.errors ++
          analyze (parse lex fuel (initState tokens)).2.globals
            (parse lex fuel (initState tokens)).1) = false :=
      Bool.eq_false_iff.mpr hf
    simp [if_neg hf, hf0]

/-- Look up after assigning the same node yields the assigned location. -/
theorem getAssignment_setAssignment_self (acc : List (Nat × ObjLoc)) (n : Nat)
    (loc : ObjLoc) :
    getAssignment (setAssignment acc n loc) n = some loc := by
  induction acc with
  | nil => simp [setAssignment, getAssignment]
  | cons kv rest ih =>
    obtain ⟨k, w⟩ := kv
    simp only [setAssignment]
    by_cases h : k = n
    · rw [if_pos h]
      simp [getAssignment, h]
    · rw [if_neg h]
      simp [getAssignment, h, ih]

/-- Assigning a different node does not disturb a node's location. -/
theorem getAssignment_setAssignment_other (acc : List (Nat × ObjLoc))
    (k : Nat) (w : ObjLoc) (n : Nat) (h : k ≠ n) :
    getAssignment (setAssignment acc k w) n = getAssignment acc n := by
  induction acc with
  | nil => simp [setAssignment, getAssignment, h]
  | cons kv rest ih =>
    obtain ⟨k1, w1⟩ := kv
    simp only [setAssignment]
    by_cases h1 : k1 = k
    · rw [if_pos h1]
      subst h1
      simp [getAssignment, h]
    · rw [if_neg h1]
      simp only [getAssignment]
      by_cases h2 : k1 = n
      · rw [if_pos h2, if_pos h2]
      · rw [if_neg h2, if_neg h2, ih]

/-- Steps for nodes other than n preserve the location assigned to n. -/
theorem foldl_assignments_preserve (post : List (Nat × ObjLoc))
    (n : Nat) (loc : ObjLoc) :
    ∀ acc, n ∉ post.map Prod.fst → getAssignment acc n = some loc →
    getAssignment
      (post.foldl (fun acc e => setAssignment acc e.1 e.2) acc) n = some loc := by
  induction post with
  | nil => intro acc _ hacc; exact hacc
  | cons e rest ih =>
    intro acc hn hacc
    simp only [List.map_cons, List.mem_cons, not_or] at hn
    rw [List.foldl_cons]
    refine ih _ hn.2 ?_
    rw [getAssignment_setAssignment_other acc e.1 e.2 n (fun he => hn.1 he.symm)]
    exact hacc

/-- C9, modelled from the spec: in the emission pass, once a node has been
assigned its object location, no later emission step reassigns or
overwrites that pair; the premise that the node does not reappear among the
later steps is the spec's single forward pass visiting each expression node
once (spec section 4.6). -/
theorem objLoc_write_once (pre post : List (Nat × ObjLoc)) (n : Nat)
    (loc : ObjLoc) (hn : n ∉ post.map Prod.fst) :
    getAssignment (runEmissionAssignments (pre ++ (n, loc) :: post)) n =
      some loc := by
  unfold runEmissionAssignments
  rw [List.foldl_append, List.foldl_cons]
  exact foldl_assignments_preserve post n loc _ hn
    (getAssignment_setAssignment_self _ n loc)

/-- ErrExt holds when the target list is explicitly the source plus a
suffix. -/
theorem errExt_of_eq {st st1 : ParserState} {l : List CompilerError}
    (h : st1.errors = st.errors ++ l) : ErrExt st st1 := ⟨l, h⟩

/-- List extension by an explicitly known suffix. -/
theorem listExt_of_eq {a b l : List CompilerError} (h : b = a ++ l) :
    ∃ tl, b = a ++ tl := ⟨l, h⟩

/-- ErrExt is reflexive. -/
theorem errExt_refl (st : ParserState) : ErrExt st st :=
  ⟨[], (List.append_nil _).symm⟩

/-- ErrExt is transitive. -/
theorem errExt_trans {a b c : ParserState} (h1 : ErrExt a b) (h2 : ErrExt b c) :
    ErrExt a c := by
  obtain ⟨t1, e1⟩ := h1
  obtain ⟨t2, e2⟩ := h2
  exact ⟨t1 ++ t2, by rw [e2, e1, List.append_assoc]⟩

/-- Appending one error extends the list. -/
theorem errExt_addError (st : ParserState) (e : CompilerError) :
    ErrExt st (addError st e) := ⟨[e], rfl⟩

/-- Appending one error and advancing extends the list. -/
theorem errExt_step (st : ParserState) (e : CompilerError) :
    ErrExt st (advanceStream (addError st e)) := ⟨[e], by simp⟩

/-- Advancing alone extends the list trivially. -/
theorem errExt_adv (st : ParserState) : ErrExt st (advanceStream st) :=
  ⟨[], by simp⟩

/-- A stream-only record update extends the list trivially. -/
theorem errExt_withStream (st : ParserState) (s : TokenStream) :
    ErrExt st { st with stream := s } := ⟨[], by simp⟩

/-- Match leaves the error list unchanged. -/
theorem errors_matchToken (tc : TokenClass) (read : Bool) (st : ParserState) :
    (matchToken tc read st).2.errors = st.errors := by
  rcases matchToken_snd tc read st with h | h <;> simp [h]

/-- Match leaves the globals unchanged. -/
theorem globals_matchToken (tc : TokenClass) (read : Bool) (st : ParserState) :
    (matchToken tc read st).2.globals = st.globals := by
  rcases matchToken_snd tc read st with h | h <;> simp [h]

/-- Match extends the error list trivially. -/
theorem errExt_matchToken (tc : TokenClass) (read : Bool) (st : ParserState) :
    ErrExt st (matchToken tc read st).2 := ⟨[], by simp [errors_matchToken]⟩

/-- Expect only appends to the error list. -/
theorem errExt_expect (tc : TokenClass) (read : Bool) (st : ParserState) :
    ErrExt st (expect tc read st).2 := by
  simp only [expect]
  split
  · exact errExt_of_eq (by rw [errors_addError, errors_matchToken])
  · exact errExt_matchToken tc read st

/-- Expect leaves the globals unchanged. -/
theorem globals_expect (tc : TokenClass) (read : Bool) (st : ParserState) :
    (expect tc read st).2.globals = st.globals := by
  simp only [expect]
  split <;> simp [globals_matchToken]

/-- The end-of-statement recovery loop adds no errors. -/
theorem errors_skipToNewline (fuel : Nat) :
    ∀ st, (skipToNewline fuel st).errors = st.errors := by
  induction fuel with
  | zero => intro st; rfl
  | succ n ih =>
    intro st
    simp only [skipToNewline]
    split
    · split
      · rw [ih, errors_matchToken]
        simp
      · rw [errors_matchToken]
        simp
    · simp

/-- The end-of-statement recovery loop keeps the globals. -/
theorem globals_skipToNewline (fuel : Nat) :
    ∀ st, (skipToNewline fuel st).globals = st.globals := by
  induction fuel with
  | zero => intro st; rfl
  | succ n ih =>
    intro st
    simp only [skipToNewline]
    split
    · split
      · rw [ih, globals_matchToken]
        simp
      · rw [globals_matchToken]
        simp
    · simp

/-- ExpectEndOfStmt only appends to the error list. -/
theorem errExt_expectEndOfStmt (fuel : Nat) (st : ParserState) :
    ErrExt st (expectEndOfStmt fuel st).2 := by
  simp only [expectEndOfStmt]
  split
  · exact errExt_of_eq
      (by rw [errors_skipToNewline, errors_addError, errors_matchToken])
  · exact errExt_matchToken _ _ _

/-- ExpectEndOfStmt keeps the globals. -/
theorem globals_expectEndOfStmt (fuel : Nat) (st : ParserState) :
    (expectEndOfStmt fuel st).2.globals = st.globals := by
  simp only [expectEndOfStmt]
  split
  · rw [globals_skipToNewline]
    simp [globals_matchToken]
  · exact globals_matchToken _ _ _

/-- The terminator-skipping loop adds no errors. -/
theorem errors_skipStatementTerminators (fuel : Nat) :
    ∀ st, (skipStatementTerminators fuel st).errors = st.errors := by
  induction fuel with
  | zero => intro st; rfl
  | succ n ih =>
    intro st
    simp only [skipStatementTerminators]
    split
    · rw [errors_matchToken]
    · rw [ih, errors_matchToken]

/-- The terminator-skipping loop keeps the globals. -/
theorem globals_skipStatementTerminators (fuel : Nat) :
    ∀ st, (skipStatementTerminators fuel st).globals = st.globals := by
  induction fuel with
  | zero => intro st; rfl
  | succ n ih =>
    intro st
    simp only [skipStatementTerminators]
    split
    · rw [globals_matchToken]
    · rw [ih, globals_matchToken]

/-- The terminator-skipping loop extends the error list trivially. -/
theorem errExt_skipStatementTerminators (fuel : Nat) (st : ParserState) :
    ErrExt st (skipStatementTerminators fuel st) :=
  ⟨[], by rw [errors_skipStatementTerminators]; simp⟩

/-- ParseIdentifier only appends to the error list. -/
theorem errExt_parseIdentifier (st : ParserState) :
    ErrExt st (parseIdentifier st).2 := by
  simp only [parseIdentifier]
  split <;> exact errExt_expect _ _ st

/-- ParseIdentifier keeps the globals. -/
theorem globals_parseIdentifier (st : ParserState) :
    (parseIdentifier st).2.globals = st.globals := by
  simp only [parseIdentifier]
  split <;> exact globals_expect _ _ st

/-- ParseIntegerLiteral only appends to the error list. -/
theorem errExt_parseIntegerLiteral (st : ParserState) :
    ErrExt st (parseIntegerLiteral st).2 := by
  simp only [parseIntegerLiteral]
  split <;> exact errExt_expect _ _ st

/-- ParseIntegerLiteral keeps the globals. -/
theorem globals_parseIntegerLiteral (st : ParserState) :
    (parseIntegerLiteral st).2.globals = st.globals := by
  simp only [parseIntegerLiteral]
  split <;> exact globals_expect _ _ st

/-- ParseStringLiteral only appends to the error list. -/
theorem errExt_parseStringLiteral (st : ParserState) :
    ErrExt st (parseStringLiteral st).2 := by
  simp only [parseStringLiteral]
  split <;> exact errExt_expect _ _ st

/-- ParseStringLiteral keeps the globals. -/
theorem globals_parseStringLiteral (st : ParserState) :
    (parseStringLiteral st).2.globals = st.globals := by
  simp only [parseStringLiteral]
  split <;> exact globals_expect _ _ st

/-- ParseRegister only appends to the error list. -/
theorem errExt_parseRegister (st : ParserState) :
    ErrExt st (parseRegister st).2 := by
  simp only [parseRegister]
  split <;> exact errExt_expect _ _ st

/-- ParseRegister keeps the globals. -/
theorem globals_parseRegister (st : ParserState) :
    (parseRegister st).2.globals = st.globals := by
  simp only [parseRegister]
  split <;> exact globals_expect _ _ st

/-- ParseLocal only appends to the error list. -/
theorem errExt_parseLocal (st : ParserState) :
    ErrExt st (parseLocal st).2 := by
  simp only [parseLocal]
  split <;> exact errExt_expect _ _ st

/-- ParseLocal keeps the globals. -/
theorem globals_parseLocal (st : ParserState) :
    (parseLocal st).2.globals = st.globals := by
  simp only [parseLocal]
  split <;> exact globals_expect _ _ st

/-- ParseLabel only appends to the error list. -/
theorem errExt_parseLabel (st : ParserState) :
    ErrExt st (parseLabel st).2 := by
  simp only [parseLabel]
  split
  · obtain ⟨tl, h⟩ := errExt_expect TokenClass.tkLabel true st
    exact ⟨tl, h⟩
  · exact errExt_expect _ _ st

/-- The interpolation mini-parser only appends to its error list. -/
theorem errExt_interpLoop (g : BoundGlobals) (toks : List Token) :
    ∀ errs, ∃ tl, (interpLoop g toks errs).2 = errs ++ tl := by
  induction toks with
  | nil => intro errs; exact ⟨[], by simp [interpLoop]⟩
  | cons t rest ih =>
    intro errs
    obtain ⟨tc, tv, tloc⟩ := t
    cases tc
    case tkIdent =>
      simp only [interpLoop]
      cases hg : g.get tv with
      | none =>
        simp only [hg]
        obtain ⟨tl, h⟩ := ih (errs ++
          [⟨ErrorLevel.levelError, ErrorMessage.msgUndeclaredIdentifier, tloc, tv⟩])
        exact listExt_of_eq (by rw [h, List.append_assoc])
      | some v =>
        simp only [hg]
        exact ⟨[], by simp⟩
    all_goals
      simp only [interpLoop]
      obtain ⟨tl, h⟩ := ih (errs ++
        [⟨ErrorLevel.levelError, ErrorMessage.msgExpectedIdentifier, tloc, ""⟩])
      exact listExt_of_eq (by rw [h, List.append_assoc])

/-- ParseInterpolation only appends to the error list. -/
theorem errExt_parseInterpolation (lex : String → List Token) (st : ParserState) :
    ErrExt st (parseInterpolation lex st).2 := by
  simp only [parseInterpolation]
  split
  · exact errExt_expect _ _ st
  · obtain ⟨t1, h1⟩ := errExt_expect TokenClass.tkInterpolation true st
    obtain ⟨t2, h2⟩ := errExt_interpLoop
      (expect TokenClass.tkInterpolation true st).2.globals
      (lex (expect TokenClass.tkInterpolation true st).1.value)
      (expect TokenClass.tkInterpolation true st).2.errors
    refine ⟨t1 ++ t2, ?_⟩
    show (interpLoop _ _ _).2 = _
    rw [h2, h1, List.append_assoc]

/-- ParseInterpolation keeps the globals. -/
theorem globals_parseInterpolation (lex : String → List Token) (st : ParserState) :
    (parseInterpolation lex st).2.globals = st.globals := by
  simp only [parseInterpolation]
  split
  · exact globals_expect _ _ st
  · show (expect TokenClass.tkInterpolation true st).2.globals = st.globals
    exact globals_expect _ _ st

/-- ParseTerm at an unrecognized non-empty leading token: one diagnostic
chosen by token class and a single-token advance. -/
theorem parseTerm_unrecognized_helper (lex : String → List Token)
    (st : ParserState) (h1 : st.stream.peek.isEmptyTok = false)
    (hcls : st.stream.peek.tokenClass ∉
      [TokenClass.tkIdent, TokenClass.tkOpenParenth, TokenClass.tkOpenBracket,
       TokenClass.tkInteger, TokenClass.tkFloat, TokenClass.tkString,
       TokenClass.tkInterpolation, TokenClass.tkReg, TokenClass.tkLocal]) :
    parseTerm lex st =
      (none, advanceStream (addError st
        (if st.stream.peek.tokenClass = TokenClass.tkNewline then
          ⟨ErrorLevel.levelError, ErrorMessage.msgUnexpectedEol,
            st.stream.peek.location, ""⟩
         else
          ⟨ErrorLevel.levelError, ErrorMessage.msgUnexpectedToken,
            st.stream.peek.location, st.stream.peek.value⟩))) := by
  simp only [List.mem_cons, List.not_mem_nil, or_false, not_or] at hcls
  obtain ⟨m1, m2, m3, m4, m5, m6, m7, m8, m9⟩ := hcls
  simp only [parseTerm, h1, Bool.false_eq_true, if_false,
    matchToken_miss TokenClass.tkIdent false st m1,
    matchToken_miss TokenClass.tkOpenParenth false st m2,
    matchToken_miss TokenClass.tkOpenBracket false st m3,
    matchToken_miss TokenClass.tkInteger false st m4,
    matchToken_miss TokenClass.tkFloat false st m5,
    matchToken_miss TokenClass.tkString false st m6,
    matchToken_miss TokenClass.tkInterpolation false st m7,
    matchToken_miss TokenClass.tkReg false st m8,
    matchToken_miss TokenClass.tkLocal false st m9,
    emptyTok_isEmptyTok, Bool.not_true]
  by_cases hnl : st.stream.peek.tokenClass = TokenClass.tkNewline
  · simp only [hnl, beq_self_eq_true, if_true, if_pos rfl]
    rw [if_pos (show (addError st
      ⟨ErrorLevel.levelError, ErrorMessage.msgUnexpectedEol,
        st.stream.peek.location, ""⟩).stream.hasNext = true
      from hasNext_of_peek st h1)]
  · have hb : (st.stream.peek.tokenClass == TokenClass.tkNewline) = false := by
      simp [hnl]
    simp only [hb, Bool.false_eq_true, if_false, if_neg hnl]
    rw [if_pos (show (addError st
      ⟨ErrorLevel.levelError, ErrorMessage.msgUnexpectedToken,
        st.stream.peek.location, st.stream.peek.value⟩).stream.hasNext = true
      from hasNext_of_peek st h1)]

/-- ParseTerm at an empty peek: unexpected-end-of-file diagnostic and a
conditional advance. -/
theorem parseTerm_eval_empty (lex : String → List Token) (st : ParserState)
    (h : st.stream.peek.isEmptyTok = true) :
    parseTerm lex st =
      (none,
       if st.stream.hasNext then
         advanceStream (addError st
           ⟨ErrorLevel.levelError, ErrorMessage.msgUnexpectedEof,
             currentLocation st, ""⟩)
       else
         addError st
           ⟨ErrorLevel.levelError, ErrorMessage.msgUnexpectedEof,
             currentLocation st, ""⟩) := by
  simp only [parseTerm, h, if_true]
  rfl

/-- ParseTerm at an identifier delegates to parseIdentifier. -/
theorem parseTerm_eval_ident (lex : String → List Token) (st : ParserState)
    (h1 : st.stream.peek.isEmptyTok = false)
    (h2 : st.stream.peek.tokenClass = TokenClass.tkIdent) :
    parseTerm lex st = parseIdentifier st := by
  simp only [parseTerm, h1, Bool.false_eq_true, if_false,
    matchToken_hit_noread TokenClass.tkIdent st h1 h2, Bool.not_false, if_true]

/-- ParseTerm at an open parenthesis produces nothing and keeps the state
(the parenthesis rule is commented out in the source). -/
theorem parseTerm_eval_openParenth (lex : String → List Token) (st : ParserState)
    (h1 : st.stream.peek.isEmptyTok = false)
    (h2 : st.stream.peek.tokenClass = TokenClass.tkOpenParenth) :
    parseTerm lex st = (none, st) := by
  have m1 : st.stream.peek.tokenClass ≠ TokenClass.tkIdent := by rw [h2]; decide
  simp only [parseTerm, h1, Bool.false_eq_true, if_false,
    matchToken_miss TokenClass.tkIdent false st m1, emptyTok_isEmptyTok,
    Bool.not_true, matchToken_hit_noread TokenClass.tkOpenParenth st h1 h2,
    Bool.not_false, if_true]

/-- ParseTerm at an open bracket produces nothing and keeps the state. -/
theorem parseTerm_eval_openBracket (lex : String → List Token) (st : ParserState)
    (h1 : st.stream.peek.isEmptyTok = false)
    (h2 : st.stream.peek.tokenClass = TokenClass.tkOpenBracket) :
    parseTerm lex st = (none, st) := by
  have m1 : st.stream.peek.tokenClass ≠ TokenClass.tkIdent := by rw [h2]; decide
  have m2 : st.stream.peek.tokenClass ≠ TokenClass.tkOpenParenth := by rw [h2]; decide
  simp only [parseTerm, h1, Bool.false_eq_true, if_false,
    matchToken_miss TokenClass.tkIdent false st m1,
    matchToken_miss TokenClass.tkOpenParenth false st m2,
    emptyTok_isEmptyTok, Bool.not_true,
    matchToken_hit_noread TokenClass.tkOpenBracket st h1 h2,
    Bool.not_false, if_true]

/-- ParseTerm at an integer delegates to parseIntegerLiteral. -/
theorem parseTerm_eval_integer (lex : String → List Token) (st : ParserState)
    (h1 : st.stream.peek.isEmptyTok = false)
    (h2 : st.stream.peek.tokenClass = TokenClass.tkInteger) :
    parseTerm lex st = parseIntegerLiteral st := by
  have m1 : st.stream.peek.tokenClass ≠ TokenClass.tkIdent := by rw [h2]; decide
  have m2 : st.stream.peek.tokenClass ≠ TokenClass.tkOpenParenth := by rw [h2]; decide
  have m3 : st.stream.peek.tokenClass ≠ TokenClass.tkOpenBracket := by rw [h2]; decide
  simp only [parseTerm, h1, Bool.false_eq_true, if_false,
    matchToken_miss TokenClass.tkIdent false st m1,
    matchToken_miss TokenClass.tkOpenParenth false st m2,
    matchToken_miss TokenClass.tkOpenBracket false st m3,
    emptyTok_isEmptyTok, Bool.not_true,
    matchToken_hit_noread TokenClass.tkInteger st h1 h2,
    Bool.not_false, if_true]

/-- ParseTerm at a float produces nothing and keeps the state. -/
theorem parseTerm_eval_float (lex : String → List Token) (st : ParserState)
    (h1 : st.stream.peek.isEmptyTok = false)
    (h2 : st.stream.peek.tokenClass = TokenClass.tkFloat) :
    parseTerm lex st = (none, st) := by
  have m1 : st.stream.peek.tokenClass ≠ TokenClass.tkIdent := by rw [h2]; decide
  have m2 : st.stream.peek.tokenClass ≠ TokenClass.tkOpenParenth := by rw [h2]; decide
  have m3 : st.stream.peek.tokenClass ≠ TokenClass.tkOpenBracket := by rw [h2]; decide
  have m4 : st.stream.peek.tokenClass ≠ TokenClass.tkInteger := by rw [h2]; decide
  simp only [parseTerm, h1, Bool.false_eq_true, if_false,
    matchToken_miss TokenClass.tkIdent false st m1,
    matchToken_miss TokenClass.tkOpenParenth false st m2,
    matchToken_miss TokenClass.tkOpenBracket false st m3,
    matchToken_miss TokenClass.tkInteger false st m4,
    emptyTok_isEmptyTok, Bool.not_true,
    matchToken_hit_noread TokenClass.tkFloat st h1 h2,
    Bool.not_false, if_true]

/-- ParseTerm at a string delegates to parseStringLiteral. -/
theorem parseTerm_eval_string (lex : String → List Token) (st : ParserState)
    (h1 : st.stream.peek.isEmptyTok = false)
    (h2 : st.stream.peek.tokenClass = TokenClass.tkString) :
    parseTerm lex st = parseStringLiteral st := by
  have m1 : st.stream.peek.tokenClass ≠ TokenClass.tkIdent := by rw [h2]; decide
  have m2 : st.stream.peek.tokenClass ≠ TokenClass.tkOpenParenth := by rw [h2]; decide
  have m3 : st.stream.peek.tokenClass ≠ TokenClass.tkOpenBracket := by rw [h2]; decide
  have m4 : st.stream.peek.tokenClass ≠ TokenClass.tkInteger := by rw [h2]; decide
  have m5 : st.stream.peek.tokenClass ≠ TokenClass.tkFloat := by rw [h2]; decide
  simp only [parseTerm, h1, Bool.false_eq_true, if_false,
    matchToken_miss TokenClass.tkIdent false st m1,
    matchToken_miss TokenClass.tkOpenParenth false st m2,
    matchToken_miss TokenClass.tkOpenBracket false st m3,
    matchToken_miss TokenClass.tkInteger false st m4,
    matchToken_miss TokenClass.tkFloat false st m5,
    emptyTok_isEmptyTok, Bool.not_true,
    matchToken_hit_noread TokenClass.tkString st h1 h2,
    Bool.not_false, if_true]

/-- ParseTerm at an interpolation delegates to parseInterpolation. -/
theorem parseTerm_eval_interp (lex : String → List Token) (st : ParserState)
    (h1 : st.stream.peek.isEmptyTok = false)
    (h2 : st.stream.peek.tokenClass = TokenClass.tkInterpolation) :
    parseTerm lex st = parseInterpolation lex st := by
  have m1 : st.stream.peek.tokenClass ≠ TokenClass.tkIdent := by rw [h2]; decide
  have m2 : st.stream.peek.tokenClass ≠ TokenClass.tkOpenParenth := by rw [h2]; decide
  have m3 : st.stream.peek.tokenClass ≠ TokenClass.tkOpenBracket := by rw [h2]; decide
  have m4 : st.stream.peek.tokenClass ≠ TokenClass.tkInteger := by rw [h2]; decide
  have m5 : st.stream.peek.tokenClass ≠ TokenClass.tkFloat := by rw [h2]; decide
  have m6 : st.stream.peek.tokenClass ≠ TokenClass.tkString := by rw [h2]; decide
  simp only [parseTerm, h1, Bool.false_eq_true, if_false,
    matchToken_miss TokenClass.tkIdent false st m1,
    matchToken_miss TokenClass.tkOpenParenth false st m2,
    matchToken_miss TokenClass.tkOpenBracket false st m3,
    matchToken_miss TokenClass.tkInteger false st m4,
    matchToken_miss TokenClass.tkFloat false st m5,
    matchToken_miss TokenClass.tkString false st m6,
    emptyTok_isEmptyTok, Bool.not_true,
    matchToken_hit_noread TokenClass.tkInterpolation st h1 h2,
    Bool.not_false, if_true]

/-- ParseTerm at a register token delegates to parseRegister. -/
theorem parseTerm_eval_reg (lex : String → List Token) (st : ParserState)
    (h1 : st.stream.peek.isEmptyTok = false)
    (h2 : st.stream.peek.tokenClass = TokenClass.tkReg) :
    parseTerm lex st = parseRegister st := by
  have m1 : st.stream.peek.tokenClass ≠ TokenClass.tkIdent := by rw [h2]; decide
  have m2 : st.stream.peek.tokenClass ≠ TokenClass.tkOpenParenth := by rw [h2]; decide
  have m3 : st.stream.peek.tokenClass ≠ TokenClass.tkOpenBracket := by rw [h2]; decide
  have m4 : st.stream.peek.tokenClass ≠ TokenClass.tkInteger := by rw [h2]; decide
  have m5 : st.stream.peek.tokenClass ≠ TokenClass.tkFloat := by rw [h2]; decide
  have m6 : st.stream.peek.tokenClass ≠ TokenClass.tkString := by rw [h2]; decide
  have m7 : st.stream.peek.tokenClass ≠ TokenClass.tkInterpolation := by rw [h2]; decide
  simp only [parseTerm, h1, Bool.false_eq_true, if_false,
    matchToken_miss TokenClass.tkIdent false st m1,
    matchToken_miss TokenClass.tkOpenParenth false st m2,
    matchToken_miss TokenClass.tkOpenBracket false st m3,
    matchToken_miss TokenClass.tkInteger false st m4,
    matchToken_miss TokenClass.tkFloat false st m5,
    matchToken_miss TokenClass.tkString false st m6,
    matchToken_miss TokenClass.tkInterpolation false st m7,
    emptyTok_isEmptyTok, Bool.not_true,
    matchToken_hit_noread TokenClass.tkReg st h1 h2,
    Bool.not_false, if_true]

/-- ParseTerm at a local token delegates to parseLocal. -/
theorem parseTerm_eval_local (lex : String → List Token) (st : ParserState)
    (h1 : st.stream.peek.isEmptyTok = false)
    (h2 : st.stream.peek.tokenClass = TokenClass.tkLocal) :
    parseTerm lex st = parseLocal st := by
  have m1 : st.stream.peek.tokenClass ≠ TokenClass.tkIdent := by rw [h2]; decide
  have m2 : st.stream.peek.tokenClass ≠ TokenClass.tkOpenParenth := by rw [h2]; decide
  have m3 : st.stream.peek.tokenClass ≠ TokenClass.tkOpenBracket := by rw [h2]; decide
  have m4 : st.stream.peek.tokenClass ≠ TokenClass.tkInteger := by rw [h2]; decide
  have m5 : st.stream.peek.tokenClass ≠ TokenClass.tkFloat := by rw [h2]; decide
  have m6 : st.stream.peek.tokenClass ≠ TokenClass.tkString := by rw [h2]; decide
  have m7 : st.stream.peek.tokenClass ≠ TokenClass.tkInterpolation := by rw [h2]; decide
  have m8 : st.stream.peek.tokenClass ≠ TokenClass.tkReg := by rw [h2]; decide
  simp only [parseTerm, h1, Bool.false_eq_true, if_false,
    matchToken_miss TokenClass.tkIdent false st m1,
    matchToken_miss TokenClass.tkOpenParenth false st m2,
    matchToken_miss TokenClass.tkOpenBracket false st m3,
    matchToken_miss TokenClass.tkInteger false st m4,
    matchToken_miss TokenClass.tkFloat false st m5,
    matchToken_miss TokenClass.tkString false st m6,
    matchToken_miss TokenClass.tkInterpolation false st m7,
    matchToken_miss TokenClass.tkReg false st m8,
    emptyTok_isEmptyTok, Bool.not_true,
    matchToken_hit_noread TokenClass.tkLocal st h1 h2,
    Bool.not_false, if_true]

/-- ParseTerm only appends to the error list. -/
theorem errExt_parseTerm (lex : String → List Token) (st : ParserState) :
    ErrExt st (parseTerm lex st).2 := by
  by_cases he : st.stream.peek.isEmptyTok = true
  · rw [parseTerm_eval_empty lex st he]
    dsimp only
    split
    · exact errExt_step _ _
    · exact errExt_addError _ _
  · have h1 : st.stream.peek.isEmptyTok = false := by
      revert he
      cases st.stream.peek.isEmptyTok <;> simp
    cases hcl : st.stream.peek.tokenClass
    · exact absurd hcl ((isEmptyTok_false_iff _).mp h1)
    · rw [parseTerm_eval_integer lex st h1 hcl]
      exact errExt_parseIntegerLiteral st
    · rw [parseTerm_eval_float lex st h1 hcl]
      exact errExt_refl st
    · rw [parseTerm_eval_string lex st h1 hcl]
      exact errExt_parseStringLiteral st
    · rw [parseTerm_eval_ident lex st h1 hcl]
      exact errExt_parseIdentifier st
    · rw [parseTerm_unrecognized_helper lex st h1 (by rw [hcl]; decide)]
      exact errExt_step _ _
    · rw [parseTerm_unrecognized_helper lex st h1 (by rw [hcl]; decide)]
      exact errExt_step _ _
    · rw [parseTerm_eval_interp lex st h1 hcl]
      exact errExt_parseInterpolation lex st
    · rw [parseTerm_eval_reg lex st h1 hcl]
      exact errExt_parseRegister st
    · rw [parseTerm_eval_local lex st h1 hcl]
      exact errExt_parseLocal st
    · rw [parseTerm_unrecognized_helper lex st h1 (by rw [hcl]; decide)]
      exact errExt_step _ _
    · rw [parseTerm_eval_openParenth lex st h1 hcl]
      exact errExt_refl st
    · rw [parseTerm_unrecognized_helper lex st h1 (by rw [hcl]; decide)]
      exact errExt_step _ _
    · rw [parseTerm_eval_openBracket lex st h1 hcl]
      exact errExt_refl st
    · rw [parseTerm_unrecognized_helper lex st h1 (by rw [hcl]; decide)]
      exact errExt_step _ _
    · rw [parseTerm_unrecognized_helper lex st h1 (by rw [hcl]; decide)]
      exact errExt_step _ _
    · rw [parseTerm_unrecognized_helper lex st h1 (by rw [hcl]; decide)]
      exact errExt_step _ _

/-- ParseTerm keeps the globals. -/
theorem globals_parseTerm (lex : String → List Token) (st : ParserState) :
    (parseTerm lex st).2.globals = st.globals := by
  by_cases he : st.stream.peek.isEmptyTok = true
  · rw [parseTerm_eval_empty lex st he]
    dsimp only
    split <;> simp
  · have h1 : st.stream.peek.isEmptyTok = false := by
      revert he
      cases st.stream.peek.isEmptyTok <;> simp
    cases hcl : st.stream.peek.tokenClass
    · exact absurd hcl ((isEmptyTok_false_iff _).mp h1)
    · rw [parseTerm_eval_integer lex st h1 hcl]
      exact globals_parseIntegerLiteral st
    · rw [parseTerm_eval_float lex st h1 hcl]
    · rw [parseTerm_eval_string lex st h1 hcl]
      exact globals_parseStringLiteral st
    · rw [parseTerm_eval_ident lex st h1 hcl]
      exact globals_parseIdentifier st
    · rw [parseTerm_unrecognized_helper lex st h1 (by rw [hcl]; decide)]
      simp
    · rw [parseTerm_unrecognized_helper lex st h1 (by rw [hcl]; decide)]
      simp
    · rw [parseTerm_eval_interp lex st h1 hcl]
      exact globals_parseInterpolation lex st
    · rw [parseTerm_eval_reg lex st h1 hcl]
      exact globals_parseRegister st
    · rw [parseTerm_eval_local lex st h1 hcl]
      exact globals_parseLocal st
    · rw [parseTerm_unrecognized_helper lex st h1 (by rw [hcl]; decide)]
      simp
    · rw [parseTerm_eval_openParenth lex st h1 hcl]
    · rw [parseTerm_unrecognized_helper lex st h1 (by rw [hcl]; decide)]
      simp
    · rw [parseTerm_eval_openBracket lex st h1 hcl]
    · rw [parseTerm_unrecognized_helper lex st h1 (by rw [hcl]; decide)]
      simp
    · rw [parseTerm_unrecognized_helper lex st h1 (by rw [hcl]; decide)]
      simp
    · rw [parseTerm_unrecognized_helper lex st h1 (by rw [hcl]; decide)]
      simp

/-- ParseExpression only appends to the error list. -/
theorem errExt_parseExpression (lex : String → List Token) (st : ParserState) :
    ErrExt st (parseExpression lex st).2 :=
  errExt_parseTerm lex st

/-- ParseExpression keeps the globals. -/
theorem globals_parseExpression (lex : String → List Token) (st : ParserState) :
    (parseExpression lex st).2.globals = st.globals :=
  globals_parseTerm lex st

/-- ParseCommand only appends to the error list. -/
theorem errExt_parseCommand (lex : String → List Token) (st : ParserState) :
    ErrExt st (parseCommand lex st).2 := by
  simp only [parseCommand]
  by_cases hemp : (!(expect TokenClass.tkIdent true st).1.isEmptyTok) = true
  · rw [if_pos hemp]
    cases hfm : findJumpMode jumpModeStrings
        (expect TokenClass.tkIdent true st).1.value with
    | some mode =>
      simp only [hfm]
      cases he : (parseExpression lex (expect TokenClass.tkIdent true st).2).1 with
      | none =>
        simp only [he]
        exact errExt_trans (errExt_expect _ _ _) (errExt_parseExpression lex _)
      | some expr =>
        simp only [he]
        exact errExt_trans (errExt_expect _ _ _) (errExt_parseExpression lex _)
    | none =>
      simp only [hfm]
      by_cases hc : (expect TokenClass.tkIdent true st).1.value = "cmp"
      · rw [if_pos hc]
        cases h1 : (parseExpression lex (expect TokenClass.tkIdent true st).2).1 with
        | none =>
          simp only [h1]
          exact errExt_trans (errExt_expect _ _ _) (errExt_parseExpression lex _)
        | some left =>
          simp only [h1]
          cases h2 : (parseExpression lex
              (parseExpression lex (expect TokenClass.tkIdent true st).2).2).1 with
          | none =>
            simp only [h2]
            exact errExt_trans (errExt_expect _ _ _)
              (errExt_trans (errExt_parseExpression lex _) (errExt_parseExpression lex _))
          | some right =>
            simp only [h2]
            exact errExt_trans (errExt_expect _ _ _)
              (errExt_trans (errExt_parseExpression lex _) (errExt_parseExpression lex _))
      · rw [if_neg hc]
        exact errExt_trans (errExt_expect _ _ _)
          (errExt_trans (errExt_withStream _ _) (errExt_parseIdentifier _))
  · rw [if_neg hemp]
    exact errExt_trans (errExt_expect _ _ _) (errExt_adv _)

/-- ParseCommand keeps the globals. -/
theorem globals_parseCommand (lex : String → List Token) (st : ParserState) :
    (parseCommand lex st).2.globals = st.globals := by
  simp only [parseCommand]
  by_cases hemp : (!(expect TokenClass.tkIdent true st).1.isEmptyTok) = true
  · rw [if_pos hemp]
    cases hfm : findJumpMode jumpModeStrings
        (expect TokenClass.tkIdent true st).1.value with
    | some mode =>
      simp only [hfm]
      cases he : (parseExpression lex (expect TokenClass.tkIdent true st).2).1 with
      | none =>
        simp only [he]
        rw [globals_parseExpression, globals_expect]
      | some expr =>
        simp only [he]
        rw [globals_parseExpression, globals_expect]
    | none =>
      simp only [hfm]
      by_cases hc : (expect TokenClass.tkIdent true st).1.value = "cmp"
      · rw [if_pos hc]
        cases h1 : (parseExpression lex (expect TokenClass.tkIdent true st).2).1 with
        | none =>
          simp only [h1]
          rw [globals_parseExpression, globals_expect]
        | some left =>
          simp only [h1]
          cases h2 : (parseExpression lex
              (parseExpression lex (expect TokenClass.tkIdent true st).2).2).1 with
          | none =>
            simp only [h2]
            rw [globals_parseExpression, globals_parseExpression, globals_expect]
          | some right =>
            simp only [h2]
            rw [globals_parseExpression, globals_parseExpression, globals_expect]
      · rw [if_neg hc]
        rw [globals_parseIdentifier]
        show (expect TokenClass.tkIdent true st).2.globals = st.globals
        exact globals_expect _ _ _
  · rw [if_neg hemp]
    rw [globals_advanceStream, globals_expect]

/-- The directive argument loop only appends to the error list. -/
theorem errExt_parseDirectiveArgs (lex : String → List Token) (fuel : Nat) :
    ∀ args st, ErrExt st (parseDirectiveArgs lex fuel args st).2 := by
  induction fuel with
  | zero => intro args st; exact errExt_refl st
  | succ n ih =>
    intro args st
    simp only [parseDirectiveArgs]
    split
    · split
      · exact errExt_trans (errExt_parseTerm _ _) (ih _ _)
      · exact errExt_parseTerm _ _
    · exact errExt_refl st

/-- The directive argument loop keeps the globals. -/
theorem globals_parseDirectiveArgs (lex : String → List Token) (fuel : Nat) :
    ∀ args st, (parseDirectiveArgs lex fuel args st).2.globals = st.globals := by
  induction fuel with
  | zero => intro args st; rfl
  | succ n ih =>
    intro args st
    simp only [parseDirectiveArgs]
    split
    · split
      · rw [ih, globals_parseTerm]
      · exact globals_parseTerm _ _
    · rfl

/-- The directive body loop adds no errors. -/
theorem errors_parseDirectiveBody (fuel : Nat) :
    ∀ counter body st, (parseDirectiveBody fuel counter body st).2.errors = st.errors := by
  induction fuel with
  | zero => intro c b st; rfl
  | succ n ih =>
    intro c b st
    simp only [parseDirectiveBody]
    repeat' split
    all_goals simp [ih]

/-- The directive body loop keeps the globals. -/
theorem globals_parseDirectiveBody (fuel : Nat) :
    ∀ counter body st, (parseDirectiveBody fuel counter body st).2.globals = st.globals := by
  induction fuel with
  | zero => intro c b st; rfl
  | succ n ih =>
    intro c b st
    simp only [parseDirectiveBody]
    repeat' split
    all_goals simp [ih]

/-- The directive body loop extends the error list trivially. -/
theorem errExt_parseDirectiveBody (fuel : Nat) (c : Int) (b : String)
    (st : ParserState) : ErrExt st (parseDirectiveBody fuel c b st).2 :=
  ⟨[], by rw [errors_parseDirectiveBody]; simp⟩

/-- ParseDirective only appends to the error list. -/
theorem errExt_parseDirective (lex : String → List Token) (fuel : Nat)
    (st : ParserState) : ErrExt st (parseDirective lex fuel st).2 := by
  simp only [parseDirective]
  repeat' split
  all_goals first
    | exact errExt_trans (errExt_expect _ _ _)
        (errExt_trans (errExt_parseDirectiveArgs lex fuel [] _)
          (errExt_trans (errExt_matchToken _ _ _)
            (errExt_parseDirectiveBody _ _ _ _)))
    | exact errExt_trans (errExt_expect _ _ _)
        (errExt_trans (errExt_parseDirectiveArgs lex fuel [] _)
          (errExt_matchToken _ _ _))
    | exact errExt_expect _ _ st

/-- ParseDirective keeps the globals. -/
theorem globals_parseDirective (lex : String → List Token) (fuel : Nat)
    (st : ParserState) : (parseDirective lex fuel st).2.globals = st.globals := by
  simp only [parseDirective]
  repeat' split
  all_goals first
    | rw [globals_parseDirectiveBody, globals_matchToken,
        globals_parseDirectiveArgs, globals_expect]
    | rw [globals_matchToken, globals_parseDirectiveArgs, globals_expect]
    | exact globals_expect _ _ st

/-- The statement dispatch only appends to the error list. -/
theorem errExt_parseDispatch (lex : String → List Token) (fuel : Nat)
    (st1 : ParserState) : ErrExt st1 (parseDispatch lex fuel st1).2 := by
  simp only [parseDispatch]
  by_cases hd : (!(matchToken TokenClass.tkDirective false st1).1.isEmptyTok) = true
  · rw [if_pos hd]
    exact errExt_parseDirective lex fuel st1
  · rw [if_neg hd]
    by_cases hl : (!(matchToken TokenClass.tkLabel false st1).1.isEmptyTok) = true
    · rw [if_pos hl]
      exact errExt_parseLabel st1
    · rw [if_neg hl]
      by_cases hi : (!(matchToken TokenClass.tkIdent false st1).1.isEmptyTok) = true
      · rw [if_pos hi]
        exact errExt_parseCommand lex st1
      · rw [if_neg hi]
        exact errExt_parseExpression lex st1

/-- ParseStatement only appends to the error list. -/
theorem errExt_parseStatement (lex : String → List Token) (fuel : Nat)
    (st : ParserState) : ErrExt st (parseStatement lex fuel st).2 := by
  simp only [parseStatement]
  by_cases hn : (!(skipStatementTerminators fuel st).stream.hasNext) = true
  · rw [if_pos hn]
    exact errExt_skipStatementTerminators fuel st
  · rw [if_neg hn]
    have hcomb := errExt_trans (errExt_skipStatementTerminators fuel st)
      (errExt_parseDispatch lex fuel (skipStatementTerminators fuel st))
    cases hr : (parseDispatch lex fuel (skipStatementTerminators fuel st)).1 with
    | none =>
      simp only [hr]
      exact hcomb
    | some res =>
      simp only [hr]
      by_cases hnx : (parseDispatch lex fuel
          (skipStatementTerminators fuel st)).2.stream.hasNext = true
      · rw [if_pos hnx]
        exact errExt_trans hcomb (errExt_expectEndOfStmt _ _)
      · rw [if_neg hnx]
        exact hcomb

/-- The statement loop of parse only appends to the error list. -/
theorem errExt_parseLoopAcc (lex : String → List Token) (fuel : Nat) :
    ∀ h o st, ErrExt st (parseLoopAcc lex fuel h o st).2.2 := by
  induction fuel with
  | zero => intro h o st; exact errExt_refl st
  | succ n ih =>
    intro h o st
    simp only [parseLoopAcc]
    by_cases hn : st.stream.hasNext = true
    · rw [if_pos hn]
      cases hr : (parseStatement lex n st).1 with
      | none =>
        simp only [hr]
        exact errExt_parseStatement lex n st
      | some stmt =>
        simp only [hr]
        by_cases hh : stmt.isHoisted = true
        · rw [if_pos hh]
          exact errExt_trans (errExt_parseStatement lex n st) (ih _ _ _)
        · rw [if_neg hh]
          exact errExt_trans (errExt_parseStatement lex n st) (ih _ _ _)
    · rw [if_neg hn]
      exact errExt_refl st

/-- Parse only appends to the error list. -/
theorem errExt_parse (lex : String → List Token) (fuel : Nat) (st : ParserState) :
    ErrExt st (parse lex fuel st).2 :=
  errExt_trans (errExt_skipStatementTerminators fuel st)
    (errExt_parseLoopAcc lex fuel [] [] _)

/-- C3 counterexample: after the stray close brace fails to parse, the
Parser does not continue with the remaining statements: the loop breaks
with three tokens still unread, the following label declaration is never
parsed or registered, and the AST sequence stays empty. -/
theorem parse_continuation_counterexample :
    (parse lexNone 8 (initState strayToks)).1 = []
    ∧ (parse lexNone 8 (initState strayToks)).2.stream.pos = 1
    ∧ (parse lexNone 8 (initState strayToks)).2.stream.hasNext = true
    ∧ (parse lexNone 8 (initState strayToks)).2.globals.get "lbl" = none
    ∧ (parse lexNone 8 (initState strayToks)).2.errors.length = 1 :=
  ⟨rfl, rfl, rfl, rfl, rfl⟩

/-- C3 as amended: diagnostics are appended to the unit's list and never
thrown or removed (the error list after parse is the input list plus a
suffix), but when a statement fails to parse (parseStatement yields no
statement) the statement loop of Parser.parse stops at once, so the
remaining statements of the token stream are not parsed in that pass. -/
theorem parse_appends_diagnostics_and_stops (lex : String → List Token)
    (fuel : Nat) (st st1 : ParserState) (h o : List AstNode)
    (hnext : st.stream.hasNext = true)
    (hfail : parseStatement lex fuel st = (none, st1)) :
    (∃ tl, (parse lex fuel st).2.errors = st.errors ++ tl)
    ∧ parseLoopAcc lex (fuel + 1) h o st = (h, o, st1) := by
  constructor
  · exact errExt_parse lex fuel st
  · simp only [parseLoopAcc]
    rw [if_pos hnext, hfail]

/-- Witness for C3 as amended, at the stray close brace stream: the failed
first statement stops the loop with the label tokens unread. -/
theorem parse_appends_diagnostics_and_stops_witness :
    (∃ tl, (parse lexNone 7 (initState strayToks)).2.errors =
      (initState strayToks).errors ++ tl)
    ∧ parseLoopAcc lexNone 8 [] [] (initState strayToks) =
      ([], [],
        ⟨⟨strayToks, 1⟩,
         [⟨ErrorLevel.levelError, ErrorMessage.msgUnexpectedToken, loc0, ""⟩],
         BoundGlobals.root []⟩) :=
  parse_appends_diagnostics_and_stops lexNone 7 (initState strayToks)
    ⟨⟨strayToks, 1⟩,
     [⟨ErrorLevel.levelError, ErrorMessage.msgUnexpectedToken, loc0, ""⟩],
     BoundGlobals.root []⟩ [] [] (by decide) rfl

/-- Looking up after a set sees the new binding for the set name and the
old bindings otherwise. -/
theorem lookupEntry_setEntry (es : List (String × AstNode)) (name : String)
    (v : AstNode) (m : String) :
    lookupEntry (setEntry es name v) m =
      if m = name then some v else lookupEntry es m := by
  induction es with
  | nil =>
    simp only [setEntry, lookupEntry]
    by_cases h : name = m
    · rw [if_pos h, if_pos h.symm]
    · rw [if_neg h, if_neg (fun hh => h hh.symm)]
  | cons kv rest ih =>
    obtain ⟨k, w⟩ := kv
    simp only [setEntry]
    by_cases hk : k = name
    · rw [if_pos hk]
      simp only [lookupEntry]
      by_cases hm : k = m
      · have hmn : m = name := by rw [← hm, hk]
        rw [if_pos hm, if_pos hmn]
      · have hmn : ¬ m = name := fun hh => hm (by rw [hk, ← hh])
        rw [if_neg hm, if_neg hmn, if_neg hm]
    · rw [if_neg hk]
      simp only [lookupEntry]
      by_cases hm : k = m
      · have hmn : ¬ m = name := fun hh => hk (by rw [hm, hh])
        rw [if_pos hm, if_neg hmn, if_pos hm]
      · rw [if_neg hm, if_neg hm, ih]

/-- Get after set: the new binding for the set name, get otherwise. -/
theorem get_set (g : BoundGlobals) (name : String) (v : AstNode) (m : String) :
    (g.set name v).get m = if m = name then some v else g.get m := by
  cases g with
  | root entries =>
    simp only [BoundGlobals.set, BoundGlobals.get]
    exact lookupEntry_setEntry entries name v m
  | child entries parent =>
    simp only [BoundGlobals.set, BoundGlobals.get]
    rw [lookupEntry_setEntry entries name v m]
    by_cases h : m = name
    · rw [if_pos h, if_pos h]
    · rw [if_neg h, if_neg h]

/-- An entry of a set entry list is an old entry or carries the set value. -/
theorem mem_setEntry (es : List (String × AstNode)) (name : String)
    (v : AstNode) :
    ∀ p ∈ setEntry es name v, p ∈ es ∨ p.2 = v := by
  induction es with
  | nil =>
    intro p hp
    simp only [setEntry, List.mem_singleton] at hp
    right
    rw [hp]
  | cons kv rest ih =>
    intro p hp
    obtain ⟨k, w⟩ := kv
    simp only [setEntry] at hp
    by_cases hk : k = name
    · rw [if_pos hk] at hp
      rcases List.mem_cons.mp hp with h | h
      · right; rw [h]
      · left; exact List.mem_cons_of_mem _ h
    · rw [if_neg hk] at hp
      rcases List.mem_cons.mp hp with h | h
      · left; rw [h]; exact List.mem_cons_self _ _
      · rcases ih p h with h1 | h1
        · left; exact List.mem_cons_of_mem _ h1
        · right; exact h1

/-- Setting a label value preserves the labels-only invariant. -/
theorem labelsOnly_set (g : BoundGlobals) (name : String) (n : String)
    (ℓ : SourceLocation) (hg : labelsOnly g) :
    labelsOnly (g.set name (AstNode.label n ℓ)) := by
  cases g with
  | root entries =>
    simp only [BoundGlobals.set, labelsOnly] at *
    intro p hp
    rcases mem_setEntry entries name (AstNode.label n ℓ) p hp with h | h
    · exact hg p h
    · exact ⟨n, ℓ, h⟩
  | child entries parent =>
    simp only [BoundGlobals.set, labelsOnly] at *
    refine ⟨?_, hg.2⟩
    intro p hp
    rcases mem_setEntry entries name (AstNode.label n ℓ) p hp with h | h
    · exact hg.1 p h
    · exact ⟨n, ℓ, h⟩

/-- A successful lookup comes from an entry of the list. -/
theorem lookupEntry_mem (es : List (String × AstNode)) (m : String)
    (v : AstNode) (h : lookupEntry es m = some v) : ∃ k, (k, v) ∈ es := by
  induction es with
  | nil => exact absurd h (by simp [lookupEntry])
  | cons kv rest ih =>
    obtain ⟨k, w⟩ := kv
    simp only [lookupEntry] at h
    by_cases hk : k = m
    · rw [if_pos hk] at h
      exact ⟨k, by rw [Option.some_inj.mp h]; exact List.mem_cons_self _ _⟩
    · rw [if_neg hk] at h
      obtain ⟨k1, hm⟩ := ih h
      exact ⟨k1, List.mem_cons_of_mem _ hm⟩

/-- Under the labels-only invariant every successful get is a label node. -/
theorem get_labelsOnly (g : BoundGlobals) (m : String) (v : AstNode)
    (hg : labelsOnly g) (h : g.get m = some v) :
    ∃ n ℓ, v = AstNode.label n ℓ := by
  induction g with
  | root entries =>
    simp only [BoundGlobals.get] at h
    simp only [labelsOnly] at hg
    obtain ⟨k, hm⟩ := lookupEntry_mem entries m v h
    obtain ⟨n, ℓ, hv⟩ := hg (k, v) hm
    exact ⟨n, ℓ, hv⟩
  | child entries parent ih =>
    simp only [BoundGlobals.get] at h
    simp only [labelsOnly] at hg
    cases hl : lookupEntry entries m with
    | some w =>
      rw [hl] at h
      obtain ⟨k, hm⟩ := lookupEntry_mem entries m w hl
      obtain ⟨n, ℓ, hv⟩ := hg.1 (k, w) hm
      refine ⟨n, ℓ, ?_⟩
      rw [← Option.some_inj.mp h]
      exact hv
    | none =>
      rw [hl] at h
      exact ih hg.2 h

/-- Shape of a parseIdentifier result. -/
theorem parseIdentifier_shape (st : ParserState) (v : AstNode)
    (h : (parseIdentifier st).1 = some v) : ∃ s ℓ, v = AstNode.identifier s ℓ := by
  simp only [parseIdentifier] at h
  by_cases hemp : (!(expect TokenClass.tkIdent true st).1.isEmptyTok) = true
  · rw [if_pos hemp] at h
    exact ⟨_, _, (Option.some_inj.mp h).symm⟩
  · rw [if_neg hemp] at h
    exact absurd h (by simp)

/-- Shape of a parseIntegerLiteral result. -/
theorem parseIntegerLiteral_shape (st : ParserState) (v : AstNode)
    (h : (parseIntegerLiteral st).1 = some v) :
    ∃ n ℓ, v = AstNode.integerLiteral n ℓ := by
  simp only [parseIntegerLiteral] at h
  by_cases hemp : (!(expect TokenClass.tkInteger true st).1.isEmptyTok) = true
  · rw [if_pos hemp] at h
    exact ⟨_, _, (Option.some_inj.mp h).symm⟩
  · rw [if_neg hemp] at h
    exact absurd h (by simp)

/-- Shape of a parseStringLiteral result. -/
theorem parseStringLiteral_shape (st : ParserState) (v : AstNode)
    (h : (parseStringLiteral st).1 = some v) :
    ∃ s ℓ, v = AstNode.stringLiteral s ℓ := by
  simp only [parseStringLiteral] at h
  by_cases hemp : (!(expect TokenClass.tkString true st).1.isEmptyTok) = true
  · rw [if_pos hemp] at h
    exact ⟨_, _, (Option.some_inj.mp h).symm⟩
  · rw [if_neg hemp] at h
    exact absurd h (by simp)

/-- Shape of a parseRegister result. -/
theorem parseRegister_shape (st : ParserState) (v : AstNode)
    (h : (parseRegister st).1 = some v) :
    ∃ o ℓ, v = AstNode.dataLocation o ℓ := by
  simp only [parseRegister] at h
  by_cases hemp : (!(expect TokenClass.tkReg true st).1.isEmptyTok) = true
  · rw [if_pos hemp] at h
    exact ⟨_, _, (Option.some_inj.mp h).symm⟩
  · rw [if_neg hemp] at h
    exact absurd h (by simp)

/-- Shape of a parseLocal result. -/
theorem parseLocal_shape (st : ParserState) (v : AstNode)
    (h : (parseLocal st).1 = some v) :
    ∃ o ℓ, v = AstNode.dataLocation o ℓ := by
  simp only [parseLocal] at h
  by_cases hemp : (!(expect TokenClass.tkLocal true st).1.isEmptyTok) = true
  · rw [if_pos hemp] at h
    exact ⟨_, _, (Option.some_inj.mp h).symm⟩
  · rw [if_neg hemp] at h
    exact absurd h (by simp)

/-- The interpolation mini-parser only returns expressions stored in the
symbol table. -/
theorem interpLoop_shape (g : BoundGlobals) (toks : List Token) :
    ∀ errs v, (interpLoop g toks errs).1 = some v →
    ∃ name, g.get name = some v := by
  induction toks with
  | nil => intro errs v h; exact absurd h (by simp [interpLoop])
  | cons t rest ih =>
    intro errs v h
    obtain ⟨tc, tv, tloc⟩ := t
    cases tc
    case tkIdent =>
      simp only [interpLoop] at h
      cases hg : g.get tv with
      | some w =>
        rw [hg] at h
        exact ⟨tv, by rw [hg, Option.some_inj.mp h]⟩
      | none =>
        rw [hg] at h
        exact ih _ v h
    all_goals
      simp only [interpLoop] at h
      exact ih _ v h

/-- ParseInterpolation only returns expressions stored in the (outer)
symbol table. -/
theorem parseInterpolation_shape (lex : String → List Token) (st : ParserState)
    (v : AstNode) (h : (parseInterpolation lex st).1 = some v) :
    ∃ name, st.globals.get name = some v := by
  simp only [parseInterpolation] at h
  by_cases hemp : (expect TokenClass.tkInterpolation true st).1.isEmptyTok = true
  · rw [if_pos hemp] at h
    exact absurd h (by simp)
  · rw [if_neg hemp] at h
    obtain ⟨name, hn⟩ := interpLoop_shape
      (expect TokenClass.tkInterpolation true st).2.globals
      (lex (expect TokenClass.tkInterpolation true st).1.value) _ v h
    rw [globals_expect] at hn
    exact ⟨name, hn⟩

/-- Under the labels-only invariant a parseTerm result is never a label
declaration statement. -/
theorem parseTerm_shape (lex : String → List Token) (st : ParserState)
    (v : AstNode) (hg : labelsOnly st.globals)
    (h : (parseTerm lex st).1 = some v) : notLabelDecl v := by
  by_cases he : st.stream.peek.isEmptyTok = true
  · rw [parseTerm_eval_empty lex st he] at h
    exact absurd h (by simp)
  · have h1 : st.stream.peek.isEmptyTok = false := by
      revert he
      cases st.stream.peek.isEmptyTok <;> simp
    cases hcl : st.stream.peek.tokenClass
    · exact absurd hcl ((isEmptyTok_false_iff _).mp h1)
    · rw [parseTerm_eval_integer lex st h1 hcl] at h
      obtain ⟨n, ℓ, hv⟩ := parseIntegerLiteral_shape st v h
      intro a b c
      rw [hv]
      exact fun hh => AstNode.noConfusion hh
    · rw [parseTerm_eval_float lex st h1 hcl] at h
      exact absurd h (by simp)
    · rw [parseTerm_eval_string lex st h1 hcl] at h
      obtain ⟨s, ℓ, hv⟩ := parseStringLiteral_shape st v h
      intro a b c
      rw [hv]
      exact fun hh => AstNode.noConfusion hh
    · rw [parseTerm_eval_ident lex st h1 hcl] at h
      obtain ⟨s, ℓ, hv⟩ := parseIdentifier_shape st v h
      intro a b c
      rw [hv]
      exact fun hh => AstNode.noConfusion hh
    · rw [parseTerm_unrecognized_helper lex st h1 (by rw [hcl]; decide)] at h
      exact absurd h (by simp)
    · rw [parseTerm_unrecognized_helper lex st h1 (by rw [hcl]; decide)] at h
      exact absurd h (by simp)
    · rw [parseTerm_eval_interp lex st h1 hcl] at h
      obtain ⟨name, hn⟩ := parseInterpolation_shape lex st v h
      obtain ⟨n, ℓ, hv⟩ := get_labelsOnly st.globals name v hg hn
      intro a b c
      rw [hv]
      exact fun hh => AstNode.noConfusion hh
    · rw [parseTerm_eval_reg lex st h1 hcl] at h
      obtain ⟨o, ℓ, hv⟩ := parseRegister_shape st v h
      intro a b c
      rw [hv]
      exact fun hh => AstNode.noConfusion hh
    · rw [parseTerm_eval_local lex st h1 hcl] at h
      obtain ⟨o, ℓ, hv⟩ := parseLocal_shape st v h
      intro a b c
      rw [hv]
      exact fun hh => AstNode.noConfusion hh
    · rw [parseTerm_unrecognized_helper lex st h1 (by rw [hcl]; decide)] at h
      exact absurd h (by simp)
    · rw [parseTerm_eval_openParenth lex st h1 hcl] at h
      exact absurd h (by simp)
    · rw [parseTerm_unrecognized_helper lex st h1 (by rw [hcl]; decide)] at h
      exact absurd h (by simp)
    · rw [parseTerm_eval_openBracket lex st h1 hcl] at h
      exact absurd h (by simp)
    · rw [parseTerm_unrecognized_helper lex st h1 (by rw [hcl]; decide)] at h
      exact absurd h (by simp)
    · rw [parseTerm_unrecognized_helper lex st h1 (by rw [hcl]; decide)] at h
      exact absurd h (by simp)
    · rw [parseTerm_unrecognized_helper lex st h1 (by rw [hcl]; decide)] at h
      exact absurd h (by simp)

/-- A parseCommand result is never a label declaration statement. -/
theorem parseCommand_shape (lex : String → List Token) (st : ParserState)
    (v : AstNode) (h : (parseCommand lex st).1 = some v) : notLabelDecl v := by
  simp only [parseCommand] at h
  by_cases hemp : (!(expect TokenClass.tkIdent true st).1.isEmptyTok) = true
  · rw [if_pos hemp] at h
    cases hfm : findJumpMode jumpModeStrings
        (expect TokenClass.tkIdent true st).1.value with
    | some mode =>
      simp only [hfm] at h
      cases he : (parseExpression lex (expect TokenClass.tkIdent true st).2).1 with
      | none =>
        rw [he] at h
        exact absurd h (by simp)
      | some expr =>
        rw [he] at h
        intro a b c
        rw [← Option.some_inj.mp h]
        exact fun hh => AstNode.noConfusion hh
    | none =>
      simp only [hfm] at h
      by_cases hc : (expect TokenClass.tkIdent true st).1.value = "cmp"
      · rw [if_pos hc] at h
        cases h1 : (parseExpression lex (expect TokenClass.tkIdent true st).2).1 with
        | none =>
          rw [h1] at h
          exact absurd h (by simp)
        | some left =>
          rw [h1] at h
          cases h2 : (parseExpression lex
              (parseExpression lex (expect TokenClass.tkIdent true st).2).2).1 with
          | none =>
            rw [h2] at h
            exact absurd h (by simp)
          | some right =>
            rw [h2] at h
            intro a b c
            rw [← Option.some_inj.mp h]
            exact fun hh => AstNode.noConfusion hh
      · rw [if_neg hc] at h
        obtain ⟨s, ℓ, hv⟩ := parseIdentifier_shape _ v h
        intro a b c
        rw [hv]
        exact fun hh => AstNode.noConfusion hh
  · rw [if_neg hemp] at h
    exact absurd h (by simp)

/-- A parseDirective result is a directive node. -/
theorem parseDirective_shape (lex : String → List Token) (fuel : Nat)
    (st : ParserState) (v : AstNode)
    (h : (parseDirective lex fuel st).1 = some v) : notLabelDecl v := by
  simp only [parseDirective] at h
  by_cases hemp : (!(expect TokenClass.tkDirective true st).1.isEmptyTok) = true
  · rw [if_pos hemp] at h
    intro a b c
    rw [← Option.some_inj.mp h]
    exact fun hh => AstNode.noConfusion hh
  · rw [if_neg hemp] at h
    exact absurd h (by simp)

/-- ParseLabel preserves the labels-only invariant, never drops a binding,
and registers the declared label's name in the bound globals. -/
theorem parseLabel_props (st : ParserState) (hg : labelsOnly st.globals) :
    labelsOnly (parseLabel st).2.globals
    ∧ (∀ m, (st.globals.get m).isSome = true →
        ((parseLabel st).2.globals.get m).isSome = true)
    ∧ (∀ n l ℓ, (parseLabel st).1 = some (AstNode.labelDecl n l ℓ) →
        ((parseLabel st).2.globals.get n).isSome = true) := by
  simp only [parseLabel]
  by_cases hemp : (!(expect TokenClass.tkLabel true st).1.isEmptyTok) = true
  · rw [if_pos hemp]
    refine ⟨?_, ?_, ?_⟩
    · show labelsOnly ((expect TokenClass.tkLabel true st).2.globals.set _ _)
      rw [globals_expect]
      exact labelsOnly_set _ _ _ _ hg
    · intro m hm
      show (((expect TokenClass.tkLabel true st).2.globals.set _ _).get m).isSome = true
      rw [globals_expect, get_set]
      by_cases hmv : m = (expect TokenClass.tkLabel true st).1.value
      · rw [if_pos hmv]; rfl
      · rw [if_neg hmv]; exact hm
    · intro n l ℓ hres
      have hinj := Option.some_inj.mp hres
      rw [AstNode.labelDecl.injEq] at hinj
      obtain ⟨h1, _, _⟩ := hinj
      show (((expect TokenClass.tkLabel true st).2.globals.set _ _).get n).isSome = true
      rw [globals_expect, get_set, if_pos h1.symm]
      rfl
  · rw [if_neg hemp]
    refine ⟨?_, ?_, ?_⟩
    · show labelsOnly (expect TokenClass.tkLabel true st).2.globals
      rw [globals_expect]
      exact hg
    · intro m hm
      show (((expect TokenClass.tkLabel true st).2.globals).get m).isSome = true
      rw [globals_expect]
      exact hm
    · intro n l ℓ hres
      exact absurd hres (by simp)

/-- The statement dispatch preserves the labels-only invariant, never drops
a binding, and registers the name of any label declaration it returns. -/
theorem parseDispatch_props (lex : String → List Token) (fuel : Nat)
    (st1 : ParserState) (hg : labelsOnly st1.globals) :
    labelsOnly (parseDispatch lex fuel st1).2.globals
    ∧ (∀ m, (st1.globals.get m).isSome = true →
        ((parseDispatch lex fuel st1).2.globals.get m).isSome = true)
    ∧ (∀ n l ℓ, (parseDispatch lex fuel st1).1 = some (AstNode.labelDecl n l ℓ) →
        ((parseDispatch lex fuel st1).2.globals.get n).isSome = true) := by
  simp only [parseDispatch]
  by_cases hd : (!(matchToken TokenClass.tkDirective false st1).1.isEmptyTok) = true
  · rw [if_pos hd]
    refine ⟨?_, ?_, ?_⟩
    · rw [globals_parseDirective]; exact hg
    · intro m hm; rw [globals_parseDirective]; exact hm
    · intro n l ℓ hres
      exact absurd rfl (parseDirective_shape lex fuel st1 _ hres n l ℓ)
  · rw [if_neg hd]
    by_cases hl : (!(matchToken TokenClass.tkLabel false st1).1.isEmptyTok) = true
    · rw [if_pos hl]
      exact parseLabel_props st1 hg
    · rw [if_neg hl]
      by_cases hi : (!(matchToken TokenClass.tkIdent false st1).1.isEmptyTok) = true
      · rw [if_pos hi]
        refine ⟨?_, ?_, ?_⟩
        · rw [globals_parseCommand]; exact hg
        · intro m hm; rw [globals_parseCommand]; exact hm
        · intro n l ℓ hres
          exact absurd rfl (parseCommand_shape lex st1 _ hres n l ℓ)
      · rw [if_neg hi]
        refine ⟨?_, ?_, ?_⟩
        · rw [globals_parseExpression]; exact hg
        · intro m hm; rw [globals_parseExpression]; exact hm
        · intro n l ℓ hres
          exact absurd rfl (parseTerm_shape lex st1 _ hg hres n l ℓ)

/-- ParseStatement preserves the labels-only invariant, never drops a
binding, and registers the name of any label declaration it returns. -/
theorem parseStatement_props (lex : String → List Token) (fuel : Nat)
    (st : ParserState) (hg : labelsOnly st.globals) :
    labelsOnly (parseStatement lex fuel st).2.globals
    ∧ (∀ m, (st.globals.get m).isSome = true →
        ((parseStatement lex fuel st).2.globals.get m).isSome = true)
    ∧ (∀ n l ℓ, (parseStatement lex fuel st).1 = some (AstNode.labelDecl n l ℓ) →
        ((parseStatement lex fuel st).2.globals.get n).isSome = true) := by
  have hg1 : labelsOnly (skipStatementTerminators fuel st).globals := by
    rw [globals_skipStatementTerminators]
    exact hg
  simp only [parseStatement]
  by_cases hn : (!(skipStatementTerminators fuel st).stream.hasNext) = true
  · rw [if_pos hn]
    refine ⟨hg1, ?_, ?_⟩
    · intro m hm
      show ((skipStatementTerminators fuel st).globals.get m).isSome = true
      rw [globals_skipStatementTerminators]
      exact hm
    · intro n l ℓ hres
      exact absurd hres (by simp)
  · rw [if_neg hn]
    obtain ⟨p1, p2, p3⟩ :=
      parseDispatch_props lex fuel (skipStatementTerminators fuel st) hg1
    have p2s : ∀ m, (st.globals.get m).isSome = true →
        ((parseDispatch lex fuel (skipStatementTerminators fuel st)).2.globals.get m).isSome = true := by
      intro m hm
      refine p2 m ?_
      rw [globals_skipStatementTerminators]
      exact hm
    cases hr : (parseDispatch lex fuel (skipStatementTerminators fuel st)).1 with
    | none =>
      simp only [hr]
      exact ⟨p1, p2s, fun n l ℓ hres => absurd hres (by simp)⟩
    | some res =>
      simp only [hr]
      by_cases hnx : (parseDispatch lex fuel
          (skipStatementTerminators fuel st)).2.stream.hasNext = true
      · rw [if_pos hnx]
        dsimp only
        refine ⟨?_, ?_, ?_⟩
        · rw [globals_expectEndOfStmt]
          exact p1
        · intro m hm
          rw [globals_expectEndOfStmt]
          exact p2s m hm
        · intro n l ℓ hres
          have hres2 : res = AstNode.labelDecl n l ℓ := Option.some_inj.mp hres
          rw [globals_expectEndOfStmt]
          exact p3 n l ℓ (by rw [hr, hres2])
      · rw [if_neg hnx]
        dsimp only
        refine ⟨p1, p2s, ?_⟩
        intro n l ℓ hres
        have hres2 : res = AstNode.labelDecl n l ℓ := Option.some_inj.mp hres
        exact p3 n l ℓ (by rw [hr, hres2])

/-- The sequential collection preserves the labels-only invariant, never
drops a binding, and every collected label declaration's name is bound in
the final globals. -/
theorem collectStatements_props (lex : String → List Token) (fuel : Nat) :
    ∀ st, labelsOnly st.globals →
    labelsOnly (collectStatements lex fuel st).2.globals
    ∧ (∀ m, (st.globals.get m).isSome = true →
        ((collectStatements lex fuel st).2.globals.get m).isSome = true)
    ∧ (∀ n l ℓ, AstNode.labelDecl n l ℓ ∈ (collectStatements lex fuel st).1 →
        ((collectStatements lex fuel st).2.globals.get n).isSome = true) := by
  induction fuel with
  | zero =>
    intro st hg
    exact ⟨hg, fun m hm => hm, fun n l ℓ h => absurd h (List.not_mem_nil _)⟩
  | succ k ih =>
    intro st hg
    simp only [collectStatements]
    by_cases hn2 : st.stream.hasNext = true
    · rw [if_pos hn2]
      obtain ⟨p1, p2, p3⟩ := parseStatement_props lex k st hg
      cases hr : (parseStatement lex k st).1 with
      | none =>
        simp only [hr]
        exact ⟨p1, p2, fun n1 l ℓ h => absurd h (List.not_mem_nil _)⟩
      | some stmt =>
        simp only [hr]
        obtain ⟨q1, q2, q3⟩ := ih (parseStatement lex k st).2 p1
        refine ⟨q1, fun m hm => q2 m (p2 m hm), ?_⟩
        intro n1 l ℓ hmem
        rcases List.mem_cons.mp hmem with heq | hmem2
        · exact q2 n1 (p3 n1 l ℓ (by rw [hr, ← heq]))
        · exact q3 n1 l ℓ hmem2
    · rw [if_neg hn2]
      exact ⟨hg, fun m hm => hm, fun n1 l ℓ h => absurd h (List.not_mem_nil _)⟩

/-- The two-accumulator statement loop computes the hoisted and unhoisted
sublists of the sequential collection, in parse order. -/
theorem parseLoopAcc_eq_collect (lex : String → List Token) (fuel : Nat) :
    ∀ h o st,
    parseLoopAcc lex fuel h o st =
      (h ++ (collectStatements lex fuel st).1.filter AstNode.isHoisted,
       o ++ (collectStatements lex fuel st).1.filter (fun s => !s.isHoisted),
       (collectStatements lex fuel st).2) := by
  induction fuel with
  | zero =>
    intro h o st
    simp [parseLoopAcc, collectStatements]
  | succ k ih =>
    intro h o st
    simp only [parseLoopAcc, collectStatements]
    by_cases hn2 : st.stream.hasNext = true
    · rw [if_pos hn2, if_pos hn2]
      cases hr : (parseStatement lex k st).1 with
      | none =>
        simp only [hr]
        simp
      | some stmt =>
        simp only [hr]
        by_cases hh : stmt.isHoisted = true
        · rw [if_pos hh, ih (h ++ [stmt]) o (parseStatement lex k st).2]
          simp [List.filter_cons, hh]
        · have hh2 : stmt.isHoisted = false := by
            revert hh
            cases stmt.isHoisted <;> simp
          rw [if_neg hh, ih h (o ++ [stmt]) (parseStatement lex k st).2]
          simp [List.filter_cons, hh2]
    · rw [if_neg hn2, if_neg hn2]
      simp

/-- Parse pushes the hoisted statements of the collection before all other
statements, each sublist in parse order. -/
theorem parse_eq_filter (lex : String → List Token) (fuel : Nat)
    (st : ParserState) :
    parse lex fuel st =
      ((collectStatements lex fuel (skipStatementTerminators fuel st)).1.filter
          AstNode.isHoisted ++
        (collectStatements lex fuel (skipStatementTerminators fuel st)).1.filter
          (fun s => !s.isHoisted),
       (collectStatements lex fuel (skipStatementTerminators fuel st)).2) := by
  simp only [parse]
  rw [parseLoopAcc_eq_collect]
  simp

/-- C2: Parser.parse routes hoisted statements into a separate ordered list
and pushes them into the AST sequence before all non-hoisted statements,
each group in parse order; every collected label declaration leaves its
name bound in the final globals, so a jump or compare statement referencing
that label resolves during analysis regardless of where the declaration
appeared. -/
theorem parse_hoists_and_resolves (lex : String → List Token) (fuel : Nat)
    (tokens : List Token) (name : String) (l : AstNode)
    (ℓ ℓ1 ℓ2 : SourceLocation) (mode : JumpMode)
    (hmem : AstNode.labelDecl name l ℓ ∈ collectedOf lex fuel tokens) :
    parse lex fuel (initState tokens) =
      ((collectedOf lex fuel tokens).filter AstNode.isHoisted ++
        (collectedOf lex fuel tokens).filter (fun s => !s.isHoisted),
       collectFinalState lex fuel tokens)
    ∧ ((collectFinalState lex fuel tokens).globals.get name).isSome = true
    ∧ analyzeNode (collectFinalState lex fuel tokens).globals
        (AstNode.jmp (AstNode.identifier name ℓ1) mode ℓ2) = []
    ∧ analyzeNode (collectFinalState lex fuel tokens).globals
        (AstNode.cmpStmt (AstNode.identifier name ℓ1)
          (AstNode.identifier name ℓ1) ℓ2) = [] := by
  have hinit : labelsOnly (initState tokens).globals := by
    intro p hp
    exact absurd hp (List.not_mem_nil _)
  have hskip : labelsOnly
      (skipStatementTerminators fuel (initState tokens)).globals := by
    rw [globals_skipStatementTerminators]
    exact hinit
  obtain ⟨c1, c2, c3⟩ := collectStatements_props lex fuel
    (skipStatementTerminators fuel (initState tokens)) hskip
  have hsome : ((collectFinalState lex fuel tokens).globals.get name).isSome = true :=
    c3 name l ℓ hmem
  refine ⟨parse_eq_filter lex fuel (initState tokens), hsome, ?_, ?_⟩
  · show analyzeNode _ (AstNode.identifier name ℓ1) = []
    simp only [analyzeNode]
    rw [if_pos hsome]
  · show analyzeNode _ (AstNode.identifier name ℓ1) ++
      analyzeNode _ (AstNode.identifier name ℓ1) = []
    simp only [analyzeNode]
    rw [if_pos hsome]
    rfl

/-- Witness for C2 at the forward-jump source: the label declared after the
jump is hoisted ahead of it in the AST sequence, its name is bound, and a
jump referencing it resolves with no diagnostic. -/
theorem parse_hoists_and_resolves_witness :
    parse lexNone 8 (initState fwdJumpToks) =
      ([AstNode.labelDecl "lbl" (AstNode.label "lbl" loc2) loc2,
        AstNode.jmp (AstNode.identifier "lbl" loc1) JumpMode.modeNone loc0],
       collectFinalState lexNone 8 fwdJumpToks)
    ∧ ((collectFinalState lexNone 8 fwdJumpToks).globals.get "lbl").isSome = true
    ∧ analyzeNode (collectFinalState lexNone 8 fwdJumpToks).globals
        (AstNode.jmp (AstNode.identifier "lbl" loc3) JumpMode.modeNone loc3) = [] := by
  have hc : collectedOf lexNone 8 fwdJumpToks =
      [AstNode.jmp (AstNode.identifier "lbl" loc1) JumpMode.modeNone loc0,
       AstNode.labelDecl "lbl" (AstNode.label "lbl" loc2) loc2] := rfl
  have h := parse_hoists_and_resolves lexNone 8 fwdJumpToks "lbl"
    (AstNode.label "lbl" loc2) loc2 loc3 loc3 JumpMode.modeNone
    (by rw [hc]; exact List.mem_cons_of_mem _ (List.mem_cons_self _ _))
  refine ⟨?_, h.2.1, h.2.2.1⟩
  rw [h.1, hc]
  rfl

/-- Witness for C9: a three-step pass assigns node 1 its location in the
middle step and the later step leaves it untouched. -/
theorem objLoc_write_once_witness :
    getAssignment (runEmissionAssignments
      [(0, ⟨0, DataStoreLocation.registerDataStore⟩),
       (1, ⟨0, DataStoreLocation.localDataStore⟩),
       (2, ⟨1, DataStoreLocation.registerDataStore⟩)]) 1 =
      some ⟨0, DataStoreLocation.localDataStore⟩ :=
  objLoc_write_once [(0, ⟨0, DataStoreLocation.registerDataStore⟩)]
    [(2, ⟨1, DataStoreLocation.registerDataStore⟩)] 1
    ⟨0, DataStoreLocation.localDataStore⟩ (by decide)

end Bcparse






